import Mathlib

/-!
# Browser patch scripts: `safari_detector.js` and `selectbox_fix.js`

A shallow embedding of the two scripts under `src/assets`, and the properties
of them that the specification states.

* JavaScript strings are lists of characters.  Every pattern the scripts use
  is ASCII, so matching on characters and matching on UTF-16 code units agree.
* A JavaScript value that the detector can produce is a boolean or `null`;
  a thrown exception is the `error` case of `Except`.
* A document is the list of its elements in document order; an element has
  node data (tag, attributes, classes, text, parent), an inline style and a
  list of event listeners.  The functions of the scripts take the document
  they read and return the document they leave.
* An inline style is a list of declarations of longhand properties.  A write
  to a shorthand sets each of its longhands; the value of a longhand set that
  way is kept as the pair of the shorthand and the text written to it.
* A page is a document with the timers and observers a script has installed
  and a count of the calls of the reapplication function of the script.
-/

namespace SafariDetector

/-- The values that `isSafariIOS26` can evaluate to. -/
inductive JSValue where
  | bool (b : Bool)
  | null
  deriving DecidableEq, Repr

/-- The exceptions that the modelled code can raise. -/
inductive JSError where
  | typeError
  deriving DecidableEq, Repr

/-- JavaScript truthiness of a value (`ToBoolean`). -/
def JSValue.truthy : JSValue → Bool
  | .bool b => b
  | .null => false

/-- The operator `a && b`: the left operand when it is falsy, else the right one. -/
def JSValue.and (a b : JSValue) : JSValue :=
  if a.truthy then b else a

/-- `RegExp.prototype.test` for a pattern that is a literal word: does the
word occur somewhere in the subject? -/
def testLit (pat : List Char) : List Char → Bool
  | [] => pat.isEmpty
  | c :: cs => pat.isPrefixOf (c :: cs) || testLit pat cs

/-- The pattern `/iPad|iPhone|iPod/`. -/
def testIDevice (s : List Char) : Bool :=
  testLit "iPad".data s || testLit "iPhone".data s || testLit "iPod".data s

/-- The pattern `/Safari/`. -/
def testSafari (s : List Char) : Bool :=
  testLit "Safari".data s

/-- The pattern `/Chrome|CriOS|FxiOS/`. -/
def testOtherBrowser (s : List Char) : Bool :=
  testLit "Chrome".data s || testLit "CriOS".data s || testLit "FxiOS".data s

/-- The class `\d` of a regular expression without the `u` flag: `0` to `9`. -/
def isDigit (c : Char) : Bool :=
  48 ≤ c.toNat && c.toNat ≤ 57

/-- An attempt to match `/OS (\d+)_/` with the match starting at the head of
the subject; the result is capture group 1.  The greedy `\d+` takes the whole
run of digits; giving digits back cannot help, because the character after a
shorter run is a digit and not `_`. -/
def matchOSAt (s : List Char) : Option (List Char) :=
  if "OS ".data.isPrefixOf s then
    let rest := s.drop 3
    let ds := rest.takeWhile isDigit
    if !ds.isEmpty && (rest.dropWhile isDigit).head? == some (Char.ofNat 95) then some ds
    else none
  else none

/-- The call `userAgent.match(/OS (\d+)_/)`: the leftmost match, tried at every
start position from left to right; `none` is JavaScript `null`. -/
def matchOS : List Char → Option (List Char)
  | [] => none
  | c :: cs =>
    match matchOSAt (c :: cs) with
    | some ds => some ds
    | none => matchOS cs

/-- The call `parseInt` on a non-empty string of decimal digits.  JavaScript
computes a double; rounding to the nearest double is monotone and 26 is a
double, so the comparison with 26 has the same outcome on the exact integer. -/
def parseInt (ds : List Char) : Nat :=
  ds.foldl (fun n c => 10 * n + (c.toNat - 48)) 0

/-- The string that `RegExp.prototype.test` sees: its argument converted with
`ToString`, which maps `undefined` to the word `undefined`. -/
def toStringArg : Option (List Char) → List Char
  | some s => s
  | none => "undefined".data

/-- The function `isSafariIOS26` of `safari_detector.js`.  The arguments are
the ambient values it reads: `navigator.userAgent` (`none` is `undefined`) and
the truthiness of `window.MSStream`. -/
def isSafariIOS26 (userAgent : Option (List Char)) (msStream : Bool) :
    Except JSError JSValue :=
  let isIOS : Bool := testIDevice (toStringArg userAgent) && !msStream
  let isSafari : Bool :=
    testSafari (toStringArg userAgent) && !testOtherBrowser (toStringArg userAgent)
  match userAgent with
  | none => .error .typeError
  | some ua =>
    let iosVersion := matchOS ua
    let isIOS26 : JSValue :=
      match iosVersion with
      | none => .null
      | some ds => .bool (decide (26 ≤ parseInt ds))
    .ok (((JSValue.bool isIOS).and (JSValue.bool isSafari)).and isIOS26)

end SafariDetector

namespace Dom

/-- The value of a declaration.  A value written to the property itself is the
text that was written.  A value that a property received through a shorthand
is the component for that property of the text written to the shorthand; the
computation of the component is the browser's, and here the value is kept as
the pair of the shorthand and the text. -/
inductive Value where
  | text (s : String)
  | part (shorthand : String) (s : String)
  deriving DecidableEq, Repr

/-- One declaration of an inline style: property name, value, and whether it
carries the `important` priority. -/
structure Decl where
  prop : String
  value : Value
  important : Bool
  deriving DecidableEq, Repr

/-- The declaration block behind `element.style`, in declaration order.  A
block holds declarations of longhand properties only: a write to a shorthand
is a write to each of its longhands. -/
abbrev Style := List Decl

/-- The declaration of property `p` in a block, if there is one. -/
def getDecl (p : String) : Style → Option Decl
  | [] => none
  | d :: ds => if d.prop = p then some d else getDecl p ds

/-- The CSSOM steps "set a CSS declaration": a declaration of the property
that is already in the block is replaced where it stands, else the new
declaration is appended. -/
def setDecl (p : String) (v : Value) (important : Bool) : Style → Style
  | [] => [⟨p, v, important⟩]
  | d :: ds => if d.prop = p then ⟨p, v, important⟩ :: ds else d :: setDecl p v important ds

/-- The longhands of the shorthand properties that the scripts write, in
canonical order; the empty list for a property that is not a shorthand.  The
`border` shorthand also resets the `border-image` properties. -/
def longhandsOf (p : String) : List String :=
  if p = "padding" then
    ["padding-top", "padding-right", "padding-bottom", "padding-left"]
  else if p = "margin" then
    ["margin-top", "margin-right", "margin-bottom", "margin-left"]
  else if p = "gap" then
    ["row-gap", "column-gap"]
  else if p = "border" then
    ["border-top-width", "border-right-width", "border-bottom-width", "border-left-width",
     "border-top-style", "border-right-style", "border-bottom-style", "border-left-style",
     "border-top-color", "border-right-color", "border-bottom-color", "border-left-color",
     "border-image-source", "border-image-slice", "border-image-width",
     "border-image-outset", "border-image-repeat"]
  else if p = "border-top" then
    ["border-top-width", "border-top-style", "border-top-color"]
  else if p = "border-right" then
    ["border-right-width", "border-right-style", "border-right-color"]
  else if p = "border-bottom" then
    ["border-bottom-width", "border-bottom-style", "border-bottom-color"]
  else if p = "border-left" then
    ["border-left-width", "border-left-style", "border-left-color"]
  else if p = "border-radius" then
    ["border-top-left-radius", "border-top-right-radius", "border-bottom-right-radius",
     "border-bottom-left-radius"]
  else if p = "outline" then
    ["outline-color", "outline-style", "outline-width"]
  else if p = "overscroll-behavior" then
    ["overscroll-behavior-x", "overscroll-behavior-y"]
  else []

/-- The declarations that a write of the text `v` to property `p` sets: one
for the property itself when it is a longhand, one for each of its longhands
when it is a shorthand. -/
def expand (p v : String) : List (String × Value) :=
  match longhandsOf p with
  | [] => [(p, Value.text v)]
  | l :: ls => (l :: ls).map (fun q => (q, Value.part p v))

/-- The declarations that a run of writes sets, in the order of the writes. -/
def expandAll (patch : List (String × String)) : List (String × Value) :=
  patch.flatMap (fun pv => expand pv.1 pv.2)

/-- The longhand properties that a run of writes sets. -/
def longhandsIn (patch : List (String × String)) : List String :=
  (expandAll patch).map (fun qv => qv.1)

/-- A run of declarations set with empty priority on a declaration block. -/
def applyWrites (w : List (String × Value)) (s : Style) : Style :=
  w.foldl (fun s pv => setDecl pv.1 pv.2 false s) s

/-- A run of declarations set with `important` priority on a declaration
block. -/
def applyImportant (w : List (String × Value)) (s : Style) : Style :=
  w.foldl (fun s pv => setDecl pv.1 pv.2 true s) s

/-- The event types the scripts listen to. -/
inductive EventType where
  | mouseenter
  | mouseleave
  | focus
  deriving DecidableEq, Repr

/-- The listener bodies the scripts register. -/
inductive Handler where
  | hoverEnter
  | hoverLeave
  | focusOutline
  | focusTransform
  deriving DecidableEq, Repr

/-- A registered event listener. -/
structure Listener where
  type : EventType
  handler : Handler
  deriving DecidableEq, Repr

/-- What selectors can see of an element: tag name (lower case), attributes,
class list, text content, and the index of the parent element. -/
structure Node where
  tag : String
  attrs : List (String × String)
  classes : List String
  text : String
  parent : Option Nat
  deriving DecidableEq, Repr

/-- An element: its node data, its inline style and its event listeners. -/
structure Element where
  node : Node
  style : Style
  listeners : List Listener
  deriving DecidableEq, Repr

/-- A document: its elements in document order, each with the index of its
parent.  An element is referred to by its position in the list.  Every DOM
tree is such a list (its elements in pre-order); the results below hold for
every list, and of the order they use only that a parent comes before its
children. -/
abbrev Document := List Element

/-- The node data of all elements. -/
def tree (doc : Document) : List Node :=
  doc.map (fun e => e.node)

/-- The parent of element `i`.  Document order puts a parent before its
children, so a parent index that does not point backwards is no parent. -/
def parentOf (t : List Node) (i : Nat) : Option Nat :=
  match t[i]? with
  | some n =>
    match n.parent with
    | some p => if p < i then some p else none
    | none => none
  | none => none

/-- Is `a` among the first `fuel` proper ancestors of `i`? -/
def hasAncestor (t : List Node) (a : Nat) : Nat → Nat → Bool
  | 0, _ => false
  | fuel + 1, i =>
    match parentOf t i with
    | some p => p == a || hasAncestor t a fuel p
    | none => false

/-- Is `i` a descendant of `a`?  A chain of parents starting at `i` has at
most `i` members. -/
def isDescendant (t : List Node) (a i : Nat) : Bool :=
  hasAncestor t a i i

/-- The value of an attribute of a node. -/
def Node.attr (n : Node) (name : String) : Option String :=
  (n.attrs.find? (fun kv => kv.1 = name)).map (fun kv => kv.2)

/-- The call `element.getAttribute(name)`; `none` is `null`. -/
def getAttribute (t : List Node) (i : Nat) (name : String) : Option String :=
  match t[i]? with
  | some n => n.attr name
  | none => none

/-- The string with its ASCII upper-case letters replaced by lower-case ones. -/
def asciiLower (s : String) : String :=
  String.mk (s.data.map (fun c =>
    if 65 ≤ c.toNat ∧ c.toNat ≤ 90 then Char.ofNat (c.toNat + 32) else c))

/-- The tag name of element `i`. -/
def tagOf (t : List Node) (i : Nat) : Option String :=
  (t[i]?).map (fun n => n.tag)

/-- Does element `i` carry the class? -/
def hasClass (t : List Node) (i : Nat) (c : String) : Bool :=
  match t[i]? with
  | some n => n.classes.contains c
  | none => false

/-- A selector: a predicate on the elements of a tree. -/
abbrev Selector := List Node → Nat → Bool

/-- The call `document.querySelectorAll(sel)`: the matches in document order. -/
def querySelectorAll (doc : Document) (sel : Selector) : List Nat :=
  (List.range doc.length).filter (fun i => sel (tree doc) i)

/-- The call `root.querySelectorAll(sel)`: the matching descendants of `root`
in document order. -/
def querySelectorAllIn (doc : Document) (root : Nat) (sel : Selector) : List Nat :=
  (List.range doc.length).filter (fun i => isDescendant (tree doc) root i && sel (tree doc) i)

/-- The call `document.querySelector(sel)`: the first match. -/
def querySelector (doc : Document) (sel : Selector) : Option Nat :=
  (querySelectorAll doc sel).head?

/-- The assignment `el.style.prop = value`, which sets the declarations of the
property with the empty priority. -/
def setStyle (doc : Document) (el : Nat) (p v : String) : Document :=
  doc.modify (fun e => { e with style := applyWrites (expand p v) e.style }) el

/-- The call `el.style.setProperty(p, v, 'important')`. -/
def setPropertyImportant (doc : Document) (el : Nat) (p v : String) : Document :=
  doc.modify (fun e => { e with style := applyImportant (expand p v) e.style }) el

/-- The call `el.addEventListener(type, function ...)` with a function
expression: each call creates a new function, so a listener is always added. -/
def addEventListener (doc : Document) (el : Nat) (type : EventType) (h : Handler) : Document :=
  doc.modify (fun e => { e with listeners := e.listeners ++ [⟨type, h⟩] }) el

/-- A run of assignments `el.style.p = v`, in the order of the list. -/
def assign (doc : Document) (el : Nat) (patch : List (String × String)) : Document :=
  patch.foldl (fun d pv => setStyle d el pv.1 pv.2) doc

/-- The inline style of element `i` (empty when there is no such element). -/
def styleOf (doc : Document) (i : Nat) : Style :=
  match doc[i]? with
  | some e => e.style
  | none => []

/-- The listeners of element `i`. -/
def listenersOf (doc : Document) (i : Nat) : List Listener :=
  match doc[i]? with
  | some e => e.listeners
  | none => []

/-- The attribute list after `setAttribute(name, value)`: an attribute that is
present keeps its place and takes the new value, else it is appended. -/
def setAttr (name value : String) : List (String × String) → List (String × String)
  | [] => [(name, value)]
  | kv :: kvs => if kv.1 = name then (name, value) :: kvs else kv :: setAttr name value kvs

/-- The call `el.setAttribute(name, value)`, also the assignment to a
reflecting property such as `meta.content`. -/
def setAttribute (doc : Document) (el : Nat) (name value : String) : Document :=
  doc.modify (fun e => { e with node := { e.node with attrs := setAttr name value e.node.attrs } }) el

/-- The calls `document.createElement(tag)` and `parent.appendChild(el)` taken
together: the new element, with the given node data, joins the document as
the last child of `parent`.  Its index is the former length of the list. -/
def appendChild (doc : Document) (parent : Nat) (n : Node) : Document :=
  doc ++ [⟨{ n with parent := some parent }, [], []⟩]

/-- The value of `document.documentElement`; `none` is `null`. -/
def documentElement (doc : Document) : Option Nat :=
  if 0 < doc.length then some 0 else none

/-- The value of `document.head`: the first `head` child of the root. -/
def documentHead (doc : Document) : Option Nat :=
  (List.range doc.length).find? (fun i =>
    tagOf (tree doc) i == some "head" && parentOf (tree doc) i == some 0)

/-- The value of `document.body`: the first `body` or `frameset` child of the
root. -/
def documentBody (doc : Document) : Option Nat :=
  (List.range doc.length).find? (fun i =>
    (tagOf (tree doc) i == some "body" || tagOf (tree doc) i == some "frameset") &&
      parentOf (tree doc) i == some 0)

/-- A node in the `addedNodes` list of a mutation record: an element of the
document, or a text or comment node. -/
inductive AddedNode where
  | element (i : Nat)
  | text
  | comment
  deriving DecidableEq, Repr

/-- The property `node.nodeType`. -/
def AddedNode.nodeType : AddedNode → Nat
  | .element _ => 1
  | .text => 3
  | .comment => 8

/-- A mutation record of type `childList`, as far as the scripts read it. -/
structure MutationRecord where
  addedNodes : List AddedNode
  deriving DecidableEq, Repr

/-- The state of a page that runs one of the scripts: the document, the timers
and observers the script has installed, and a count of how many times the
reapplication function of the script has been called so far. -/
structure Page where
  doc : Document
  calls : Nat
  timeouts : List Nat
  intervals : List Nat
  observers : Nat
  deriving DecidableEq, Repr

end Dom

namespace SelectboxFix

open Dom

/-- The selector `ul[role="listbox"], div[role="listbox"]`. -/
def listboxSel : Selector := fun t i =>
  (tagOf t i == some "ul" && getAttribute t i "role" == some "listbox") ||
  (tagOf t i == some "div" && getAttribute t i "role" == some "listbox")

/-- The selector `li, li[role="option"]`. -/
def optionSel : Selector := fun t i =>
  tagOf t i == some "li" ||
  (tagOf t i == some "li" && getAttribute t i "role" == some "option")

/-- The selector `*`. -/
def anySel : Selector := fun _ _ => true

/-- The selector `[role="listbox"]`. -/
def roleListboxSel : Selector := fun t i =>
  getAttribute t i "role" == some "listbox"

/-- The assignments to the style of a listbox (lines 19 to 22). -/
def listboxPatch : List (String × String) :=
  [("padding", "0"), ("margin", "0"), ("gap", "0"), ("row-gap", "0")]

/-- The unconditional assignments to the style of a row (lines 29 to 52). -/
def rowPatch : List (String × String) :=
  [("position", "relative"), ("top", "auto"), ("left", "auto"), ("transform", "none"),
   ("padding", "8px 12px"), ("margin", "0"), ("min-height", "auto"), ("max-height", "none"),
   ("height", "auto"), ("line-height", "1.5"), ("display", "block"),
   ("box-sizing", "border-box"),
   ("border", "none"), ("border-top", "none"), ("border-right", "none"),
   ("border-bottom", "none"), ("border-left", "none"), ("border-radius", "0"),
   ("outline", "none"), ("box-shadow", "none")]

/-- The colours of a selected row (lines 57 and 58). -/
def selectedPatch : List (String × String) :=
  [("background-color", "#10b981"), ("color", "#ffffff")]

/-- The colours of a row that is not selected (lines 60 and 61). -/
def unselectedPatch : List (String × String) :=
  [("background-color", "#ffffff"), ("color", "#0f172a")]

/-- The assignments to the style of a descendant of a row (lines 100 to 106). -/
def childPatch : List (String × String) :=
  [("padding", "0"), ("margin", "0"), ("line-height", "1.5"), ("display", "inline"),
   ("vertical-align", "middle"), ("border", "none"), ("background-color", "transparent")]

/-- The test `el.getAttribute('aria-selected') === 'true'`. -/
def isSelected (t : List Node) (el : Nat) : Bool :=
  getAttribute t el "aria-selected" == some "true"

/-- The body of `children.forEach` (lines 99 to 107). -/
def fixChild (doc : Document) (child : Nat) : Document :=
  assign doc child childPatch

/-- The body of `options.forEach` (lines 27 to 108). -/
def fixOption (doc : Document) (option : Nat) : Document :=
  let doc := assign doc option rowPatch
  let doc :=
    if isSelected (tree doc) option then assign doc option selectedPatch
    else assign doc option unselectedPatch
  let doc := addEventListener doc option .mouseenter .hoverEnter
  let doc := addEventListener doc option .mouseleave .hoverLeave
  let doc := addEventListener doc option .focus .focusOutline
  let children := querySelectorAllIn doc option anySel
  children.foldl fixChild doc

/-- The body of `listboxes.forEach` (lines 17 to 109). -/
def fixListbox (doc : Document) (listbox : Nat) : Document :=
  let doc := assign doc listbox listboxPatch
  let options := querySelectorAllIn doc listbox optionSel
  options.foldl fixOption doc

/-- The function `fixSelectboxSpacing` of `selectbox_fix.js`, as a function
of the document it reads and mutates. -/
def fixSelectboxSpacing (doc : Document) : Document :=
  let listboxes := querySelectorAll doc listboxSel
  listboxes.foldl fixListbox doc

/-- The style writes of the `mouseenter` listener (lines 71 to 75). -/
def hoverEnterPatch : List (String × String) :=
  [("background-color", "#f3f4f6"), ("color", "#0f172a"), ("border", "none"),
   ("outline", "none"), ("box-shadow", "none")]

/-- The style writes of the `mouseleave` listener (lines 83 to 87). -/
def hoverLeavePatch : List (String × String) :=
  [("background-color", "#ffffff"), ("color", "#0f172a"), ("border", "none"),
   ("outline", "none"), ("box-shadow", "none")]

/-- The style writes of the `focus` listener (lines 93 and 94). -/
def focusPatch : List (String × String) :=
  [("outline", "none"), ("box-shadow", "none")]

/-- A run of calls `el.style.setProperty(p, v, 'important')`. -/
def assignImportant (doc : Document) (el : Nat) (patch : List (String × String)) : Document :=
  patch.foldl (fun d pv => setPropertyImportant d el pv.1 pv.2) doc

end SelectboxFix


namespace SafariDetector

open Dom

/-- The test `[type="value"]` of a selector.  In an HTML document the value
of the `type` attribute is compared without regard to ASCII case. -/
def typeIs (t : List Node) (i : Nat) (value : String) : Bool :=
  (getAttribute t i "type").map asciiLower == some value

/-- The selector
`input[type="text"], input[type="email"], input[type="password"], textarea, select`. -/
def inputSel : Selector := fun t i =>
  (tagOf t i == some "input" && typeIs t i "text") ||
  (tagOf t i == some "input" && typeIs t i "email") ||
  (tagOf t i == some "input" && typeIs t i "password") ||
  tagOf t i == some "textarea" ||
  tagOf t i == some "select"

/-- The selector `.fade-in, .slide-in-right, .slide-in-left`. -/
def animatedSel : Selector := fun t i =>
  hasClass t i "fade-in" || hasClass t i "slide-in-right" || hasClass t i "slide-in-left"

/-- The selector `button, .stButton > button`. -/
def touchSel : Selector := fun t i =>
  tagOf t i == some "button" ||
  (tagOf t i == some "button" &&
    (match parentOf t i with
     | some p => hasClass t p "stButton"
     | none => false))

/-- The selector `meta[name="viewport"]`. -/
def viewportSel : Selector := fun t i =>
  tagOf t i == some "meta" && getAttribute t i "name" == some "viewport"

/-- The assignments of fix 2 (lines 37 and 38). -/
def animatedPatch : List (String × String) :=
  [("-webkit-backface-visibility", "hidden"), ("-webkit-transform", "translateZ(0)")]

/-- The assignments of fix 3 (lines 44 to 46). -/
def touchPatch : List (String × String) :=
  [("-webkit-tap-highlight-color", "transparent"), ("-webkit-touch-callout", "none"),
   ("touch-action", "manipulation")]

/-- The value written to `viewport.content` (line 56). -/
def viewportContent : String :=
  "width=device-width, initial-scale=1.0, maximum-scale=1.0, user-scalable=no, viewport-fit=cover"

/-- The text of the style element of fix 6 (lines 64 to 70), white space
collapsed. -/
def emergencyCss : String :=
  "@supports not (backdrop-filter: blur(20px)) \x7b .main-header, .sidebar-content, .chat-container \x7b background-color: rgba(255, 255, 255, 0.95) !important; \x7d \x7d"

/-- The element built at lines 52 and 53. -/
def viewportNode : Node :=
  { tag := "meta", attrs := [("name", "viewport")], classes := [], text := "", parent := none }

/-- The element built at lines 63 to 70. -/
def emergencyStyleNode : Node :=
  { tag := "style", attrs := [], classes := [], text := emergencyCss, parent := none }

/-- The body of `inputs.forEach` (lines 28 to 31). -/
def fixInput (doc : Document) (input : Nat) : Document :=
  let doc := setStyle doc input "font-size" "16px"
  addEventListener doc input .focus .focusTransform

/-- Fix 4 up to the creation of the element (lines 50 to 55): the viewport
`meta` element of the document, created and appended to `document.head` when
there is none.  The result `none` stands for the `TypeError` raised when
`document.head` is `null`. -/
def findOrCreateViewport (doc : Document) : Option (Document × Nat) :=
  match querySelector doc viewportSel with
  | some viewport => some (doc, viewport)
  | none =>
    match documentHead doc with
    | some head => some (appendChild doc head viewportNode, doc.length)
    | none => none

/-- Fixes 4 to 6 (lines 50 to 71). -/
def fixDocument (doc : Document) : Option Document :=
  match findOrCreateViewport doc with
  | none => none
  | some (doc, viewport) =>
    let doc := setAttribute doc viewport "content" viewportContent
    match documentBody doc with
    | none => none
    | some body =>
      let doc := setStyle doc body "overscroll-behavior" "none"
      match documentElement doc with
      | none => none
      | some root =>
        let doc := setStyle doc root "overscroll-behavior" "none"
        match documentHead doc with
        | none => none
        | some head => some (appendChild doc head emergencyStyleNode)

/-- Fixes 1 to 3 (lines 26 to 47). -/
def fixElements (doc : Document) : Document :=
  let inputs := querySelectorAll doc inputSel
  let doc := inputs.foldl fixInput doc
  let animatedElements := querySelectorAll doc animatedSel
  let doc := animatedElements.foldl (fun d el => assign d el animatedPatch) doc
  let touchElements := querySelectorAll doc touchSel
  touchElements.foldl (fun d el => assign d el touchPatch) doc

/-- The function `applySafariIOS26Fixes` of `safari_detector.js`.  The result
`none` stands for the `TypeError` of a property access on `null`, which
happens when `document.head` or `document.body` is missing. -/
def applySafariIOS26Fixes (doc : Document) : Option Document :=
  fixDocument (fixElements doc)

/-- A call of `applySafariIOS26Fixes` on a page. -/
def callFixes (p : Page) : Option Page :=
  match applySafariIOS26Fixes p.doc with
  | some d => some { p with doc := d, calls := p.calls + 1 }
  | none => none

/-- The callback of the `MutationObserver` (lines 77 to 83), run on one batch
of mutation records. -/
def observer (p : Page) (mutations : List MutationRecord) : Option Page :=
  mutations.foldlM (fun p mutation =>
    if mutation.addedNodes.length > 0 then callFixes p else some p) p

/-- The function `fixStreamlitIOS26` (lines 75 to 92). -/
def fixStreamlitIOS26 (p : Page) : Option Page :=
  match documentBody p.doc with
  | none => none
  | some _ =>
    let p := { p with observers := p.observers + 1 }
    callFixes p

/-- Is the node a style element with the emergency rule of fix 6, and a
child of element `head`? -/
def isEmergencyStyle (head : Option Nat) (n : Node) : Bool :=
  n.tag == "style" && n.text == emergencyCss && n.parent == head

/-- The number of style elements with the emergency rule of fix 6 among the
children of `document.head`. -/
def emergencyStyleCount (doc : Document) : Nat :=
  (doc.filter (fun e => isEmergencyStyle (documentHead doc) e.node)).length

end SafariDetector

namespace SelectboxFix

open Dom

/-- The text of the critical style element (lines 145 to 169), white space
collapsed. -/
def criticalCss : String :=
  "[data-theme=\"light\"] li[role=\"option\"]:hover:not([aria-selected=\"true\"]), [data-theme=\"light\"] li[role=\"option\"]:hover:not([aria-selected=\"true\"]) *, body li[role=\"option\"]:hover:not([aria-selected=\"true\"]), html li[role=\"option\"]:hover:not([aria-selected=\"true\"]) \x7b background-color: #f3f4f6 !important; color: #0f172a !important; border: none !important; outline: none !important; box-shadow: none !important; \x7d li[role=\"option\"], ul[role=\"listbox\"] li[role=\"option\"] \x7b border: none !important; border-top: none !important; border-right: none !important; border-bottom: none !important; border-left: none !important; outline: none !important; box-shadow: none !important; \x7d"

/-- The element built at lines 143 to 169. -/
def criticalStyle : Node :=
  { tag := "style", attrs := [("id", "selectbox-critical-override")], classes := [],
    text := criticalCss, parent := none }

/-- A call of `fixSelectboxSpacing` on a page. -/
def callFix (p : Page) : Page :=
  { p with doc := fixSelectboxSpacing p.doc, calls := p.calls + 1 }

/-- The test of lines 122 and 123 on an added element; `node.matches` is
defined on every element, so the first conjunct holds. -/
def isOrHasListbox (doc : Document) (i : Nat) : Bool :=
  roleListboxSel (tree doc) i || (querySelectorAllIn doc i roleListboxSel).head?.isSome

/-- The body of `mutation.addedNodes.forEach` (lines 119 to 127). -/
def onAddedNode (p : Page) (node : AddedNode) : Page :=
  if node.nodeType == 1 then
    match node with
    | .element i =>
      if isOrHasListbox p.doc i then { p with timeouts := p.timeouts ++ [10] } else p
    | _ => p
  else p

/-- The callback of the `MutationObserver` (lines 116 to 130), run on one
batch of mutation records. -/
def observer (p : Page) (mutations : List MutationRecord) : Page :=
  mutations.foldl (fun p mutation =>
    if mutation.addedNodes.length != 0 then mutation.addedNodes.foldl onAddedNode p
    else p) p

/-- The expiry of the oldest pending `setTimeout(fixSelectboxSpacing, 10)`: a
turn of its own, after the turn that set the timer. -/
def fireTimeout (p : Page) : Page :=
  match p.timeouts with
  | [] => p
  | _ :: rest => callFix { p with timeouts := rest }

/-- The body of the script `selectbox_fix.js` (lines 9 to 173).  The result
`none` stands for the `TypeError` raised when `document.body` or
`document.head` is `null`. -/
def scriptBody (p : Page) : Option Page :=
  let p := callFix p
  match documentBody p.doc with
  | none => none
  | some _ =>
    let p := { p with observers := p.observers + 1 }
    let p := { p with intervals := p.intervals ++ [500] }
    match documentHead p.doc with
    | none => none
    | some head => some { p with doc := appendChild p.doc head criticalStyle }

/-- Is the node a style element with the identifier of the critical style
element, and a child of element `head`? -/
def isCriticalStyle (head : Option Nat) (n : Node) : Bool :=
  n.tag == "style" && n.attr "id" == some "selectbox-critical-override" && n.parent == head

/-- The number of style elements with the identifier of the critical style
element among the children of `document.head`. -/
def criticalStyleCount (doc : Document) : Nat :=
  (doc.filter (fun e => isCriticalStyle (documentHead doc) e.node)).length

end SelectboxFix

namespace Dom

open SelectboxFix

/-- The body of a listener, run with `this` bound to element `el`.  The calls
to `getComputedStyle` and `console.log` leave the document as it is. -/
def runHandler (h : Handler) (doc : Document) (el : Nat) : Document :=
  match h with
  | .hoverEnter =>
    if getAttribute (tree doc) el "aria-selected" != some "true" then
      assignImportant doc el hoverEnterPatch
    else doc
  | .hoverLeave =>
    if getAttribute (tree doc) el "aria-selected" != some "true" then
      assignImportant doc el hoverLeavePatch
    else doc
  | .focusOutline => assignImportant doc el focusPatch
  | .focusTransform => setStyle doc el "transform" "translateZ(0)"

/-- The delivery of an event of the given type to element `el`: its listeners
for that type run in the order of registration.  None of the three event types
bubbles. -/
def dispatchEvent (doc : Document) (el : Nat) (type : EventType) : Document :=
  ((listenersOf doc el).filter (fun l => l.type == type)).foldl
    (fun d l => runHandler l.handler d el) doc

/-- Repeated runs of a step that can fail. -/
def iterate? {α : Type} (f : α → Option α) : Nat → α → Option α
  | 0, a => some a
  | n + 1, a =>
    match f a with
    | some b => iterate? f n b
    | none => none

end Dom

/-! ## The passes as lists of operations

Selector matching looks at the node data only, and a style assignment or a
listener registration leaves the node data alone; so the effects of a pass can
be listed from the tree before the pass runs. -/

namespace Dom

/-- One effect of a pass on one element. -/
inductive Op where
  | style (el : Nat) (p v : String)
  | listen (el : Nat) (type : EventType) (h : Handler)
  deriving DecidableEq, Repr

/-- The element an operation acts on. -/
def Op.target : Op → Nat
  | .style el _ _ => el
  | .listen el _ _ => el

/-- The effect of an operation on the element it acts on. -/
def Op.onElement : Op → Element → Element
  | .style _ p v, e => { e with style := applyWrites (expand p v) e.style }
  | .listen _ t h, e => { e with listeners := e.listeners ++ [⟨t, h⟩] }

/-- The effect of an operation on the document. -/
def applyOp (doc : Document) (op : Op) : Document :=
  doc.modify op.onElement op.target

/-- The effect of a list of operations, first to last. -/
def runOps (ops : List Op) (doc : Document) : Document :=
  ops.foldl applyOp doc

/-- The operations of a run of style assignments on one element. -/
def assignOps (el : Nat) (patch : List (String × String)) : List Op :=
  patch.map (fun pv => Op.style el pv.1 pv.2)

/-- The declarations that a list of operations sets on element `i`. -/
def writesOn (i : Nat) (ops : List Op) : List (String × Value) :=
  ops.flatMap (fun op =>
    match op with
    | .style el p v => if el = i then expand p v else []
    | .listen _ _ _ => [])

/-- The listeners registered on element `i` by a list of operations. -/
def listensOn (i : Nat) (ops : List Op) : List Listener :=
  ops.filterMap (fun op =>
    match op with
    | .style _ _ _ => none
    | .listen el t h => if el = i then some ⟨t, h⟩ else none)

/-- The element at a position after a list of operations. -/
def afterOps (i : Nat) (ops : List Op) (e : Element) : Element :=
  { e with style := applyWrites (writesOn i ops) e.style,
           listeners := e.listeners ++ listensOn i ops }

/-- The run `w` writes property `q`, and its last write of `q` has value `v`. -/
def Ends (w : List (String × Value)) (q : String) (v : Value) : Prop :=
  ∀ s, getDecl q (applyWrites w s) = some ⟨q, v, false⟩

/-- The run `w` does not write property `q`. -/
def Silent (w : List (String × Value)) (q : String) : Prop :=
  ∀ pv ∈ w, pv.1 ≠ q

/-- Two trees that agree on what the selectors of the listbox script read:
tag names, parents and `role` attributes. -/
def SameShape (t1 t2 : List Node) : Prop :=
  t1.length = t2.length ∧ (∀ j, tagOf t1 j = tagOf t2 j) ∧
    (∀ j, parentOf t1 j = parentOf t2 j) ∧
    (∀ j, getAttribute t1 j "role" = getAttribute t2 j "role")

/-- The tree `t2` has the elements of `t1`, at the same positions and with
the same tag names and parents, and maybe more elements after them. -/
def Extends (t1 t2 : List Node) : Prop :=
  t1.length ≤ t2.length ∧
    ∀ j, j < t1.length → tagOf t2 j = tagOf t1 j ∧ parentOf t2 j = parentOf t1 j

/-- The matching descendants of `root`, in document order. -/
def descendantsOf (t : List Node) (root : Nat) (sel : Selector) : List Nat :=
  (List.range t.length).filter (fun i => isDescendant t root i && sel t i)

/-- The relation "proper ancestor of", as the closure of `parentOf`. -/
inductive Ancestor (t : List Node) : Nat → Nat → Prop where
  | parent {a i : Nat} : parentOf t i = some a → Ancestor t a i
  | step {a p i : Nat} : parentOf t i = some p → Ancestor t a p → Ancestor t a i

end Dom

namespace SelectboxFix

open Dom

/-- The operations of `fixChild`. -/
def childOps (child : Nat) : List Op :=
  assignOps child childPatch

/-- The colours a row receives. -/
def colourPatch (t : List Node) (option : Nat) : List (String × String) :=
  if isSelected t option then selectedPatch else unselectedPatch

/-- The operations of `fixOption`. -/
def optionOps (t : List Node) (option : Nat) : List Op :=
  assignOps option rowPatch ++ assignOps option (colourPatch t option) ++
    [Op.listen option .mouseenter .hoverEnter, Op.listen option .mouseleave .hoverLeave,
     Op.listen option .focus .focusOutline] ++
    (descendantsOf t option anySel).flatMap childOps

/-- The operations of `fixListbox`. -/
def listboxOps (t : List Node) (listbox : Nat) : List Op :=
  assignOps listbox listboxPatch ++ (descendantsOf t listbox optionSel).flatMap (optionOps t)

/-- The operations of `fixSelectboxSpacing`. -/
def passOps (t : List Node) : List Op :=
  ((List.range t.length).filter (fun i => listboxSel t i)).flatMap (listboxOps t)

/-- Element `i` is a listbox the pass patches: a `ul` or `div` with role
`listbox`. -/
def isListbox (t : List Node) (i : Nat) : Bool :=
  i < t.length && listboxSel t i

/-- Element `i` is a row the pass patches: an `li` inside a listbox. -/
def isRow (t : List Node) (i : Nat) : Bool :=
  i < t.length && optionSel t i &&
    (List.range t.length).any (fun l => listboxSel t l && isDescendant t l i)

/-- Element `i` is a descendant of a row the pass patches. -/
def isRowDescendant (t : List Node) (i : Nat) : Bool :=
  i < t.length && (List.range t.length).any (fun o => isRow t o && isDescendant t o i)

/-- The declarations of the two colour properties of element `i`. -/
def coloursOf (doc : Document) (i : Nat) : Option Decl × Option Decl :=
  (getDecl "background-color" (styleOf doc i), getDecl "color" (styleOf doc i))

/-- The two colour variants of a row, written with empty priority. -/
def variant (selected : Bool) : Option Decl × Option Decl :=
  if selected then
    (some ⟨"background-color", .text "#10b981", false⟩, some ⟨"color", .text "#ffffff", false⟩)
  else
    (some ⟨"background-color", .text "#ffffff", false⟩, some ⟨"color", .text "#0f172a", false⟩)

/-- The property names of a patch. -/
def propsOf (patch : List (String × String)) : List String :=
  patch.map (fun pv => pv.1)

/-- The longhand properties the pass sets on a row: those of the assignments
of lines 29 to 52 and the two colour properties. -/
def rowProps : List String :=
  longhandsIn rowPatch ++ ["background-color", "color"]

end SelectboxFix

namespace SafariDetector

open Dom

/-- The operations of fixes 1 to 3 of `applySafariIOS26Fixes`. -/
def elementOps (t : List Node) : List Op :=
  ((List.range t.length).filter (fun i => inputSel t i)).flatMap
      (fun i => [Op.style i "font-size" "16px", Op.listen i .focus .focusTransform]) ++
  ((List.range t.length).filter (fun i => animatedSel t i)).flatMap
      (fun i => assignOps i animatedPatch) ++
  ((List.range t.length).filter (fun i => touchSel t i)).flatMap
      (fun i => assignOps i touchPatch)

end SafariDetector

namespace SelectboxFix

open Dom

/-- Does the observer callback set a timer for this added node?  It does for
an element that has the role `listbox` or contains an element with that role. -/
def setsTimer (doc : Document) : AddedNode → Bool
  | .element i => isOrHasListbox doc i
  | _ => false

end SelectboxFix

/-! ## Sample documents -/

namespace Demo

open Dom

/-- An element without classes, text or listeners. -/
def el (tag : String) (attrs : List (String × String)) (parent : Option Nat)
    (style : Style) : Element :=
  ⟨⟨tag, attrs, [], "", parent⟩, style, []⟩

/-- A page with an open dropdown: a listbox (3) with a selected row (4) that
holds a span (5), and a row that is not selected (6), still carries the hover
style and holds a nested row (7); beside the listbox a paragraph (8). -/
def page : Document :=
  [el "html" [] none [],
   el "head" [] (some 0) [],
   el "body" [] (some 0) [],
   el "ul" [("role", "listbox")] (some 2)
     [⟨"margin-top", .text "4px", true⟩, ⟨"padding-left", .text "20px", false⟩,
      ⟨"width", .text "200px", false⟩],
   el "li" [("role", "option"), ("aria-selected", "true")] (some 3)
     [⟨"font-weight", .text "bold", false⟩],
   el "span" [] (some 4) [],
   el "li" [("role", "option"), ("aria-selected", "false")] (some 3)
     [⟨"background-color", .text "#f3f4f6", true⟩, ⟨"cursor", .text "pointer", false⟩],
   el "li" [] (some 6) [],
   el "p" [] (some 2) [⟨"padding-top", .text "3px", false⟩]]

/-- A page without a dropdown, with a text input (3), an animated block (4)
that holds a button (5), and an input whose type is written in upper case
(6). -/
def form : Document :=
  [el "html" [] none [],
   el "head" [] (some 0) [],
   el "body" [] (some 0) [],
   el "input" [("type", "text")] (some 2) [⟨"font-size", .text "12px", true⟩],
   ⟨⟨"div", [], ["fade-in"], "", some 2⟩, [], []⟩,
   el "button" [] (some 4) [],
   el "input" [("type", "EMAIL")] (some 2) []]

/-- A page in its initial state: no call made, no timer, no observer. -/
def start (doc : Document) : Page :=
  ⟨doc, 0, [], [], 0⟩

end Demo

/-! ## The environment detector -/

namespace SafariDetector

theorem osLit_eq : "OS ".data = [Char.ofNat 79, Char.ofNat 83, Char.ofNat 32] := rfl

theorem underscore_eq : "_".data = [Char.ofNat 95] := rfl

theorem isDigit_underscore : isDigit (Char.ofNat 95) = false := by decide

theorem takeWhile_digits (ds post : List Char) (h : ∀ c ∈ ds, isDigit c = true) :
    (ds ++ Char.ofNat 95 :: post).takeWhile isDigit = ds := by
  induction ds with
  | nil => simp [List.takeWhile, isDigit_underscore]
  | cons d ds ih =>
    have hd : isDigit d = true := h d (List.mem_cons_self _ _)
    rw [List.cons_append, List.takeWhile_cons, hd]
    simp only [if_true]
    rw [ih (fun c hc => h c (List.mem_cons_of_mem _ hc))]

theorem dropWhile_digits (ds post : List Char) (h : ∀ c ∈ ds, isDigit c = true) :
    (ds ++ Char.ofNat 95 :: post).dropWhile isDigit = Char.ofNat 95 :: post := by
  induction ds with
  | nil => simp [List.dropWhile, isDigit_underscore]
  | cons d ds ih =>
    have hd : isDigit d = true := h d (List.mem_cons_self _ _)
    rw [List.cons_append, List.dropWhile_cons, hd]
    simp only [if_true]
    rw [ih (fun c hc => h c (List.mem_cons_of_mem _ hc))]

/-- A match that starts at the head of the subject is found there. -/
theorem matchOSAt_of_decomp (ds post : List Char) (hne : ds ≠ [])
    (hdig : ∀ c ∈ ds, isDigit c = true) :
    matchOSAt ("OS ".data ++ ds ++ "_".data ++ post) = some ds := by
  have hds : ds.isEmpty = false := by
    cases ds with
    | nil => exact absurd rfl hne
    | cons _ _ => rfl
  simp only [osLit_eq, underscore_eq, List.cons_append, List.nil_append, List.append_assoc]
  unfold matchOSAt
  simp only [osLit_eq, List.isPrefixOf, beq_self_eq_true, Bool.and_self, if_true, List.drop,
    takeWhile_digits ds post hdig, dropWhile_digits ds post hdig, hds, List.head?]
  simp

/-- What a successful attempt at the head of the subject says about the
subject. -/
theorem matchOSAt_some (s ds : List Char) (h : matchOSAt s = some ds) :
    ∃ post, s = "OS ".data ++ ds ++ "_".data ++ post ∧ ds ≠ [] ∧ ∀ c ∈ ds, isDigit c = true := by
  unfold matchOSAt at h
  split at h
  · rename_i hp
    have hp2 := List.isPrefixOf_iff_prefix.mp hp
    obtain ⟨rest, hrest⟩ := hp2
    have hlen : ("OS ".data).length = 3 := rfl
    have hdrop : s.drop 3 = rest := by
      rw [← hrest, ← hlen, List.drop_left]
    simp only [hdrop] at h
    split at h
    · rename_i hc
      simp only [Bool.and_eq_true, Bool.not_eq_true', beq_iff_eq] at hc
      obtain ⟨hne, hhead⟩ := hc
      injection h with h
      have htd := List.takeWhile_append_dropWhile isDigit rest
      cases hdw : rest.dropWhile isDigit with
      | nil => rw [hdw] at hhead; simp at hhead
      | cons x post =>
        rw [hdw] at hhead htd
        simp only [List.head?_cons, Option.some.injEq] at hhead
        refine ⟨post, ?_, ?_, ?_⟩
        · rw [← hrest, ← htd, h, hhead, underscore_eq]; simp
        · intro hnil; rw [← h] at hnil; rw [hnil] at hne; simp at hne
        · intro c hc; rw [← h] at hc; exact (List.mem_takeWhile_imp hc)
    · exact absurd h (by simp)
  · exact absurd h (by simp)

/-- The leftmost match is the one that `matchOS` returns. -/
theorem matchOS_first (pre ds post : List Char) (hne : ds ≠ [])
    (hdig : ∀ c ∈ ds, isDigit c = true)
    (hfirst : ∀ pre2 ds2 post2, pre ++ "OS ".data ++ ds ++ "_".data ++ post
        = pre2 ++ "OS ".data ++ ds2 ++ "_".data ++ post2 →
      ds2 ≠ [] → (∀ c ∈ ds2, isDigit c = true) → pre.length ≤ pre2.length) :
    matchOS (pre ++ "OS ".data ++ ds ++ "_".data ++ post) = some ds := by
  induction pre with
  | nil =>
    have h := matchOSAt_of_decomp ds post hne hdig
    simp only [List.nil_append] at h ⊢
    cases hs : "OS ".data ++ ds ++ "_".data ++ post with
    | nil => rw [osLit_eq] at hs; simp at hs
    | cons c cs =>
      rw [hs] at h
      simp only [matchOS, h]
  | cons c pre ih =>
    simp only [List.cons_append, matchOS]
    cases hat : matchOSAt (c :: (pre ++ "OS ".data ++ ds ++ "_".data ++ post)) with
    | some ds2 =>
      exfalso
      obtain ⟨post2, heq, hne2, hdig2⟩ := matchOSAt_some _ _ hat
      have := hfirst [] ds2 post2 (by simpa using heq) hne2 hdig2
      simp at this
    | none =>
      simp only
      apply ih
      intro pre2 ds2 post2 heq hne2 hdig2
      have := hfirst (c :: pre2) ds2 post2 (by simp only [List.cons_append, heq]) hne2 hdig2
      simpa using this


theorem testLit_iff (pat s : List Char) : testLit pat s = true ↔ pat <:+: s := by
  induction s with
  | nil =>
    cases pat with
    | nil => simp [testLit]
    | cons p ps => simp [testLit]
  | cons c cs ih =>
    rw [testLit, Bool.or_eq_true, ih, List.isPrefixOf_iff_prefix, List.infix_cons_iff]


theorem isDigit_eq (c : Char) : isDigit c = c.isDigit := by
  unfold isDigit Char.isDigit Char.toNat
  rfl

theorem parseInt_fold (ds : List Char) (acc : Nat) :
    ds.foldl (fun n c => 10 * n + (c.toNat - 48)) acc =
      acc * 10 ^ ds.length + Nat.ofDigits 10 ((ds.map (fun c => c.toNat - 48)).reverse) := by
  induction ds generalizing acc with
  | nil => simp
  | cons d ds ih =>
    rw [List.foldl_cons, ih, List.map_cons, List.reverse_cons, Nat.ofDigits_append,
      Nat.ofDigits_singleton, List.length_reverse, List.length_map, List.length_cons]
    ring

/-- The model of `parseInt` computes the decimal value of a string of digits. -/
theorem parseInt_eq_ofDigits (ds : List Char) :
    parseInt ds = Nat.ofDigits 10 ((ds.map (fun c => c.toNat - 48)).reverse) := by
  unfold parseInt
  rw [parseInt_fold]
  simp

/-- Attempts that fail at every start position before `pre` make the match
after `pre` the leftmost one. -/
theorem first_of_attempts (ua pre : List Char)
    (h : ∀ k, k < pre.length → matchOSAt (ua.drop k) = none) :
    ∀ pre2 ds2 post2, ua = pre2 ++ "OS ".data ++ ds2 ++ "_".data ++ post2 →
      ds2 ≠ [] → (∀ c ∈ ds2, c.isDigit = true) → pre.length ≤ pre2.length := by
  intro pre2 ds2 post2 hua hne hdig0
  have hdig : ∀ c ∈ ds2, isDigit c = true := fun c hc => (isDigit_eq c).trans (hdig0 c hc)
  by_contra hlt
  have hk := h pre2.length (Nat.lt_of_not_le hlt)
  have hd : ua.drop pre2.length = "OS ".data ++ ds2 ++ "_".data ++ post2 := by
    rw [hua]; simp only [List.append_assoc]; rw [List.drop_left]
  rw [hd, matchOSAt_of_decomp ds2 post2 hne hdig] at hk
  exact absurd hk (by simp)

theorem and_bool_true (v : JSValue) :
    ((JSValue.bool true).and (JSValue.bool true)).and v = v := rfl

theorem and_bool_false_left (b : Bool) (v : JSValue) :
    ((JSValue.bool false).and (JSValue.bool b)).and v = JSValue.bool false := rfl

theorem and_bool_false_right (b : Bool) (v : JSValue) :
    ((JSValue.bool b).and (JSValue.bool false)).and v = JSValue.bool false := by
  cases b <;> rfl

theorem testIDevice_iff (ua : List Char) :
    testIDevice ua = true ↔
      ("iPad".data <:+: ua ∨ "iPhone".data <:+: ua ∨ "iPod".data <:+: ua) := by
  simp only [testIDevice, Bool.or_eq_true, testLit_iff, or_assoc]

theorem testOtherBrowser_iff (ua : List Char) :
    testOtherBrowser ua = true ↔
      ("Chrome".data <:+: ua ∨ "CriOS".data <:+: ua ∨ "FxiOS".data <:+: ua) := by
  simp only [testOtherBrowser, Bool.or_eq_true, testLit_iff, or_assoc]

/-- C1: for a user-agent string that contains one of iPad, iPhone, iPod,
contains Safari, contains none of Chrome, CriOS, FxiOS, with `window.MSStream`
absent, and whose leftmost occurrence of `OS <digits>_` has the digits `ds`,
which write the number `n` in decimal, `isSafariIOS26` returns `true` when
`n` is at least 26 and `false` when `n` is below 26. -/
theorem isSafariIOS26_version_threshold (ua pre ds post : List Char) (n : Nat)
    (msStream : Bool)
    (hdev : "iPad".data <:+: ua ∨ "iPhone".data <:+: ua ∨ "iPod".data <:+: ua)
    (hsaf : "Safari".data <:+: ua)
    (hoth : ¬ ("Chrome".data <:+: ua ∨ "CriOS".data <:+: ua ∨ "FxiOS".data <:+: ua))
    (hms : msStream = false)
    (hua : ua = pre ++ "OS ".data ++ ds ++ "_".data ++ post)
    (hne : ds ≠ [])
    (hdig : ∀ c ∈ ds, c.isDigit = true)
    (hn : Nat.ofDigits 10 ((ds.map (fun c => c.toNat - 48)).reverse) = n)
    (hfirst : ∀ pre2 ds2 post2, ua = pre2 ++ "OS ".data ++ ds2 ++ "_".data ++ post2 →
      ds2 ≠ [] → (∀ c ∈ ds2, c.isDigit = true) → pre.length ≤ pre2.length) :
    (26 ≤ n → isSafariIOS26 (some ua) msStream = .ok (.bool true)) ∧
    (n < 26 → isSafariIOS26 (some ua) msStream = .ok (.bool false)) := by
  have hdig2 : ∀ c ∈ ds, isDigit c = true := fun c hc => (isDigit_eq c).trans (hdig c hc)
  have hm : matchOS ua = some ds := by
    rw [hua]
    exact matchOS_first pre ds post hne hdig2 (fun pre2 ds2 post2 h h2 h3 =>
      hfirst pre2 ds2 post2 (hua.trans h) h2
        (fun c hc => (isDigit_eq c).symm.trans (h3 c hc)))
  have h1 : testIDevice ua = true := (testIDevice_iff ua).mpr hdev
  have h2 : testSafari ua = true := (testLit_iff _ ua).mpr hsaf
  have h3 : testOtherBrowser ua = false := by
    cases h : testOtherBrowser ua with
    | false => rfl
    | true => exact absurd ((testOtherBrowser_iff ua).mp h) hoth
  have hp : parseInt ds = n := (parseInt_eq_ofDigits ds).trans hn
  have hr : isSafariIOS26 (some ua) msStream = .ok (.bool (decide (26 ≤ n))) := by
    simp only [isSafariIOS26, toStringArg, h1, h2, h3, hms, hm, hp, Bool.not_false,
      Bool.and_self, and_bool_true]
  constructor
  · intro h; rw [hr, decide_eq_true h]
  · intro h; rw [hr, decide_eq_false (Nat.not_le_of_lt h)]

/-- C2: for a user-agent string that lacks the platform markers (none of
iPad, iPhone, iPod occurs, or `window.MSStream` is set, or Safari does not
occur, or one of Chrome, CriOS, FxiOS occurs), `isSafariIOS26` returns
`false`. -/
theorem isSafariIOS26_false_without_markers (ua : List Char) (msStream : Bool)
    (h : ¬ ("iPad".data <:+: ua ∨ "iPhone".data <:+: ua ∨ "iPod".data <:+: ua) ∨
      msStream = true ∨ ¬ "Safari".data <:+: ua ∨
      ("Chrome".data <:+: ua ∨ "CriOS".data <:+: ua ∨ "FxiOS".data <:+: ua)) :
    isSafariIOS26 (some ua) msStream = .ok (.bool false) := by
  simp only [isSafariIOS26, toStringArg]
  rcases h with h | h | h | h
  · have h1 : testIDevice ua = false := by
      cases h1 : testIDevice ua with
      | false => rfl
      | true => exact absurd ((testIDevice_iff ua).mp h1) h
    rw [h1, Bool.false_and, and_bool_false_left]
  · rw [h, Bool.not_true, Bool.and_false, and_bool_false_left]
  · have h2 : testSafari ua = false := by
      cases h2 : testSafari ua with
      | false => rfl
      | true => exact absurd ((testLit_iff _ ua).mp h2) h
    rw [h2, Bool.false_and, and_bool_false_right]
  · have h3 : testOtherBrowser ua = true := (testOtherBrowser_iff ua).mpr h
    rw [h3, Bool.not_true, Bool.and_false, and_bool_false_right]

/-- C3, as the code has it: on every user-agent string, the empty one
included, `isSafariIOS26` completes without an exception; when no version can
be extracted the value is falsy: it is `null` when the platform markers are
all present and the boolean `false` otherwise. -/
theorem isSafariIOS26_total_on_strings (ua : List Char) (msStream : Bool) :
    ∃ v, isSafariIOS26 (some ua) msStream = .ok v ∧
      (matchOS ua = none →
        v.truthy = false ∧
        (v = if testIDevice ua && !msStream && testSafari ua && !testOtherBrowser ua
          then JSValue.null else JSValue.bool false)) := by
  refine ⟨((JSValue.bool (testIDevice ua && !msStream)).and
      (JSValue.bool (testSafari ua && !testOtherBrowser ua))).and
      (match matchOS ua with
       | none => JSValue.null
       | some ds => JSValue.bool (decide (26 ≤ parseInt ds))), rfl, ?_⟩
  intro hm
  rw [hm]
  generalize testIDevice ua = a
  generalize testSafari ua = s
  generalize testOtherBrowser ua = o
  cases a <;> cases msStream <;> cases s <;> cases o <;> exact ⟨rfl, rfl⟩

/-- C3 fails as stated: with `navigator.userAgent` undefined the call throws a
`TypeError`, and on a string with the iOS and Safari markers and no version
the result is `null`, not the boolean `false`. -/
theorem isSafariIOS26_throws_or_null :
    isSafariIOS26 none false = .error .typeError ∧
    matchOS "Mozilla/5.0 (iPhone) Safari/604.1".data = none ∧
    isSafariIOS26 (some "Mozilla/5.0 (iPhone) Safari/604.1".data) false = .ok .null ∧
    isSafariIOS26 (some "Mozilla/5.0 (iPhone) Safari/604.1".data) false ≠ .ok (.bool false) := by
  refine ⟨rfl, by decide, rfl, ?_⟩
  intro h
  injection h with h
  exact absurd h (by decide)

/-- Witness of C1: Safari on an iPhone is detected with iOS 26 and with iOS 27,
and is not detected with iOS 18 and with iOS 9. -/
theorem isSafariIOS26_version_threshold_witness :
    isSafariIOS26 (some "Mozilla/5.0 (iPhone; CPU iPhone OS 26_0 like Mac OS X) AppleWebKit/605.1.15 Version/26.0 Mobile/15E148 Safari/604.1".data) false
      = .ok (.bool true) ∧
    isSafariIOS26 (some "Mozilla/5.0 (iPhone; CPU iPhone OS 27_0 like Mac OS X) AppleWebKit/605.1.15 Version/27.0 Mobile/15E148 Safari/604.1".data) false
      = .ok (.bool true) ∧
    isSafariIOS26 (some "Mozilla/5.0 (iPhone; CPU iPhone OS 18_5 like Mac OS X) AppleWebKit/605.1.15 Version/18.5 Mobile/15E148 Safari/604.1".data) false
      = .ok (.bool false) ∧
    isSafariIOS26 (some "Mozilla/5.0 (iPad; CPU OS 9_3 like Mac OS X) AppleWebKit/601.1 Version/9.0 Mobile/13E233 Safari/601.1".data) false
      = .ok (.bool false) :=
  ⟨(isSafariIOS26_version_threshold _ "Mozilla/5.0 (iPhone; CPU iPhone ".data "26".data
      "0 like Mac OS X) AppleWebKit/605.1.15 Version/26.0 Mobile/15E148 Safari/604.1".data 26 false
      (Or.inr (Or.inl ((testLit_iff _ _).mp (by decide))))
      ((testLit_iff _ _).mp (by decide))
      (fun h => absurd ((testOtherBrowser_iff _).mpr h) (by decide))
      rfl (by decide) (by decide) (by decide) (by decide)
      (first_of_attempts _ _ (by decide))).1 (by decide),
   (isSafariIOS26_version_threshold _ "Mozilla/5.0 (iPhone; CPU iPhone ".data "27".data
      "0 like Mac OS X) AppleWebKit/605.1.15 Version/27.0 Mobile/15E148 Safari/604.1".data 27 false
      (Or.inr (Or.inl ((testLit_iff _ _).mp (by decide))))
      ((testLit_iff _ _).mp (by decide))
      (fun h => absurd ((testOtherBrowser_iff _).mpr h) (by decide))
      rfl (by decide) (by decide) (by decide) (by decide)
      (first_of_attempts _ _ (by decide))).1 (by decide),
   (isSafariIOS26_version_threshold _ "Mozilla/5.0 (iPhone; CPU iPhone ".data "18".data
      "5 like Mac OS X) AppleWebKit/605.1.15 Version/18.5 Mobile/15E148 Safari/604.1".data 18 false
      (Or.inr (Or.inl ((testLit_iff _ _).mp (by decide))))
      ((testLit_iff _ _).mp (by decide))
      (fun h => absurd ((testOtherBrowser_iff _).mpr h) (by decide))
      rfl (by decide) (by decide) (by decide) (by decide)
      (first_of_attempts _ _ (by decide))).2 (by decide),
   (isSafariIOS26_version_threshold _ "Mozilla/5.0 (iPad; CPU ".data "9".data
      "3 like Mac OS X) AppleWebKit/601.1 Version/9.0 Mobile/13E233 Safari/601.1".data 9 false
      (Or.inl ((testLit_iff _ _).mp (by decide)))
      ((testLit_iff _ _).mp (by decide))
      (fun h => absurd ((testOtherBrowser_iff _).mpr h) (by decide))
      rfl (by decide) (by decide) (by decide) (by decide)
      (first_of_attempts _ _ (by decide))).2 (by decide)⟩

/-- Witness of C2: Chrome on iOS is not detected, whatever its version. -/
theorem isSafariIOS26_false_without_markers_witness :
    isSafariIOS26 (some "Mozilla/5.0 (iPhone; CPU iPhone OS 26_0 like Mac OS X) CriOS/120.0 Mobile/15E148 Safari/604.1".data) false
      = .ok (.bool false) :=
  isSafariIOS26_false_without_markers _ false
    (Or.inr (Or.inr (Or.inr (Or.inr (Or.inl ((testLit_iff _ _).mp (by decide)))))))

end SafariDetector

/-! ## Declaration blocks -/

namespace Dom

theorem getDecl_setDecl_same (p : String) (v : Value) (imp : Bool) (s : Style) :
    getDecl p (setDecl p v imp s) = some ⟨p, v, imp⟩ := by
  induction s with
  | nil => simp [setDecl, getDecl]
  | cons d ds ih =>
    by_cases h : d.prop = p
    · simp [setDecl, getDecl, h]
    · simp [setDecl, getDecl, h, ih]

theorem getDecl_setDecl_ne (p q : String) (v : Value) (imp : Bool) (s : Style) (h : q ≠ p) :
    getDecl q (setDecl p v imp s) = getDecl q s := by
  induction s with
  | nil => simp [setDecl, getDecl, Ne.symm h]
  | cons d ds ih =>
    by_cases hd : d.prop = p
    · have hq : ¬ d.prop = q := fun hq => h (hq.symm.trans hd)
      simp [setDecl, getDecl, hd, hq, Ne.symm h]
    · by_cases hq : d.prop = q
      · subst hq
        simp [setDecl, getDecl, hd]
      · simp [setDecl, getDecl, hd, hq, ih]

theorem setDecl_setDecl_same (p : String) (v w : Value) (i j : Bool) (s : Style) :
    setDecl p v i (setDecl p w j s) = setDecl p v i s := by
  induction s with
  | nil => simp [setDecl]
  | cons d ds ih =>
    by_cases h : d.prop = p
    · simp [setDecl, h]
    · simp [setDecl, h, ih]

theorem setDecl_comm (p q : String) (a b : Value) (i j : Bool) (s : Style) (hpq : p ≠ q)
    (hp : (getDecl p s).isSome = true) :
    setDecl p a i (setDecl q b j s) = setDecl q b j (setDecl p a i s) := by
  induction s with
  | nil => simp [getDecl] at hp
  | cons d ds ih =>
    by_cases h1 : d.prop = p
    · have h2 : ¬ d.prop = q := fun h2 => hpq (h1.symm.trans h2)
      simp [setDecl, h1, h2, hpq]
    · by_cases h2 : d.prop = q
      · simp [setDecl, h1, h2, Ne.symm hpq]
      · have hp2 : (getDecl p ds).isSome = true := by simpa [getDecl, h1] using hp
        simp [setDecl, h1, h2, ih hp2]

theorem isSome_getDecl_setDecl (p q : String) (v : Value) (imp : Bool) (s : Style)
    (h : (getDecl q s).isSome = true) : (getDecl q (setDecl p v imp s)).isSome = true := by
  by_cases hq : q = p
  · rw [hq, getDecl_setDecl_same]; rfl
  · rw [getDecl_setDecl_ne p q v imp s hq]; exact h

theorem applyWrites_append (w1 w2 : List (String × Value)) (s : Style) :
    applyWrites (w1 ++ w2) s = applyWrites w2 (applyWrites w1 s) := by
  simp [applyWrites, List.foldl_append]

theorem applyWrites_cons (pv : String × Value) (w : List (String × Value)) (s : Style) :
    applyWrites (pv :: w) s = applyWrites w (setDecl pv.1 pv.2 false s) := rfl

theorem isSome_getDecl_applyWrites (w : List (String × Value)) (q : String) (s : Style)
    (h : (getDecl q s).isSome = true) : (getDecl q (applyWrites w s)).isSome = true := by
  induction w generalizing s with
  | nil => exact h
  | cons pv w ih => exact ih _ (isSome_getDecl_setDecl _ _ _ _ _ h)

theorem isSome_getDecl_of_mem (w : List (String × Value)) (s : Style) (pv : String × Value)
    (h : pv ∈ w) : (getDecl pv.1 (applyWrites w s)).isSome = true := by
  induction w generalizing s with
  | nil => cases h
  | cons x w ih =>
    rw [applyWrites_cons]
    rcases List.mem_cons.mp h with h | h
    · apply isSome_getDecl_applyWrites
      rw [h, getDecl_setDecl_same]; rfl
    · exact ih _ h

/-- On a block that has all the properties of `w`, a write before the
run `w` is absorbed by the same write after it. -/
theorem setDecl_applyWrites_setDecl (p : String) (v : Value) (w : List (String × Value)) (u : Style)
    (h : ∀ pv ∈ w, (getDecl pv.1 u).isSome = true) :
    setDecl p v false (applyWrites w (setDecl p v false u)) =
      setDecl p v false (applyWrites w u) := by
  induction w generalizing u with
  | nil => simp [applyWrites, setDecl_setDecl_same]
  | cons x w ih =>
    rw [applyWrites_cons, applyWrites_cons]
    have hx := h x (List.mem_cons_self _ _)
    by_cases hxp : x.1 = p
    · rw [hxp, setDecl_setDecl_same]
    · rw [setDecl_comm x.1 p x.2 v false false u hxp hx]
      apply ih
      intro pv hpv
      exact isSome_getDecl_setDecl _ _ _ _ _ (h pv (List.mem_cons_of_mem _ hpv))

/-- A run of writes applied twice leaves the block that one run leaves. -/
theorem applyWrites_idem (w : List (String × Value)) (s : Style) :
    applyWrites w (applyWrites w s) = applyWrites w s := by
  induction w using List.reverseRecOn generalizing s with
  | nil => rfl
  | append_singleton w x ih =>
    rw [applyWrites_append]
    have e1 : ∀ u, applyWrites [x] u = setDecl x.1 x.2 false u := fun _ => rfl
    rw [e1, applyWrites_append, e1]
    rw [setDecl_applyWrites_setDecl x.1 x.2 w (applyWrites w s)
      (fun pv hpv => isSome_getDecl_of_mem w s pv hpv), ih]

/-- A property that no write of the run names keeps its declaration. -/
theorem getDecl_applyWrites_of_not_mem (w : List (String × Value)) (q : String) (s : Style)
    (h : ∀ pv ∈ w, pv.1 ≠ q) : getDecl q (applyWrites w s) = getDecl q s := by
  induction w generalizing s with
  | nil => rfl
  | cons x w ih =>
    rw [applyWrites_cons, ih _ (fun pv hpv => h pv (List.mem_cons_of_mem _ hpv))]
    exact getDecl_setDecl_ne _ _ _ _ _ (Ne.symm (h x (List.mem_cons_self _ _)))

/-- A property that the run writes ends with empty priority. -/
theorem getDecl_applyWrites_of_mem (w : List (String × Value)) (q : String) (s : Style)
    (h : ∃ pv ∈ w, pv.1 = q) :
    ∃ v, (∃ pv ∈ w, pv = (q, v)) ∧ getDecl q (applyWrites w s) = some ⟨q, v, false⟩ := by
  induction w using List.reverseRecOn generalizing s with
  | nil => obtain ⟨pv, hpv, _⟩ := h; cases hpv
  | append_singleton w x ih =>
    rw [applyWrites_append]
    have e1 : ∀ u, applyWrites [x] u = setDecl x.1 x.2 false u := fun _ => rfl
    rw [e1]
    by_cases hx : x.1 = q
    · refine ⟨x.2, ⟨x, by simp, ?_⟩, ?_⟩
      · rw [← hx]
      · rw [hx, getDecl_setDecl_same]
    · have h2 : ∃ pv ∈ w, pv.1 = q := by
        obtain ⟨pv, hpv, hq⟩ := h
        rcases List.mem_append.mp hpv with hpv | hpv
        · exact ⟨pv, hpv, hq⟩
        · simp only [List.mem_singleton] at hpv
          rw [hpv] at hq; exact absurd hq hx
      obtain ⟨v, ⟨pv, hpv, he⟩, hg⟩ := ih s h2
      refine ⟨v, ⟨pv, List.mem_append_left _ hpv, he⟩, ?_⟩
      rw [getDecl_setDecl_ne _ _ _ _ _ (Ne.symm hx)]
      exact hg

end Dom

/-! ## Operation lists -/

namespace Dom

theorem node_onElement (op : Op) (e : Element) : (op.onElement e).node = e.node := by
  cases op <;> rfl

theorem tree_modify (doc : Document) (f : Element → Element) (i : Nat)
    (h : ∀ e, (f e).node = e.node) : tree (doc.modify f i) = tree doc := by
  induction doc generalizing i with
  | nil => simp [tree]
  | cons e es ih =>
    cases i with
    | zero => simp [tree, List.modify_zero_cons, h]
    | succ n =>
      have := ih n
      simp only [tree] at this ⊢
      simp [List.modify_succ_cons, this]

theorem tree_applyOp (doc : Document) (op : Op) : tree (applyOp doc op) = tree doc :=
  tree_modify doc _ _ (node_onElement op)

theorem tree_runOps (ops : List Op) (doc : Document) : tree (runOps ops doc) = tree doc := by
  induction ops generalizing doc with
  | nil => rfl
  | cons op ops ih =>
    show tree (runOps ops (applyOp doc op)) = tree doc
    rw [ih, tree_applyOp]

theorem length_tree (doc : Document) : (tree doc).length = doc.length := by
  simp [tree]

theorem length_runOps (ops : List Op) (doc : Document) : (runOps ops doc).length = doc.length := by
  rw [← length_tree, tree_runOps, length_tree]

theorem runOps_append (o1 o2 : List Op) (doc : Document) :
    runOps (o1 ++ o2) doc = runOps o2 (runOps o1 doc) := by
  simp [runOps, List.foldl_append]

theorem writesOn_append (i : Nat) (o1 o2 : List Op) :
    writesOn i (o1 ++ o2) = writesOn i o1 ++ writesOn i o2 := by
  simp [writesOn]

theorem listensOn_append (i : Nat) (o1 o2 : List Op) :
    listensOn i (o1 ++ o2) = listensOn i o1 ++ listensOn i o2 := by
  simp [listensOn]

theorem getElem?_applyOp (doc : Document) (op : Op) (i : Nat) :
    (applyOp doc op)[i]? = (doc[i]?).map (afterOps i [op]) := by
  unfold applyOp
  rw [List.getElem?_modify]
  by_cases h : op.target = i
  · subst h
    simp only [if_true]
    cases hd : doc[op.target]? with
    | none => rfl
    | some e =>
      cases op with
      | style el p v => simp [afterOps, Op.onElement, writesOn, listensOn, applyWrites, Op.target]
      | listen el t hh => simp [afterOps, Op.onElement, writesOn, listensOn, applyWrites, Op.target]
  · simp only [h, if_false]
    cases hd : doc[i]? with
    | none => rfl
    | some e =>
      cases op with
      | style el p v =>
        have : ¬ el = i := h
        simp [afterOps, writesOn, listensOn, applyWrites, this]
      | listen el t hh =>
        have : ¬ el = i := h
        simp [afterOps, writesOn, listensOn, applyWrites, this]

theorem afterOps_append (i : Nat) (o1 o2 : List Op) (e : Element) :
    afterOps i (o1 ++ o2) e = afterOps i o2 (afterOps i o1 e) := by
  simp [afterOps, writesOn_append, listensOn_append, applyWrites_append]

theorem getElem?_runOps (ops : List Op) (doc : Document) (i : Nat) :
    (runOps ops doc)[i]? = (doc[i]?).map (afterOps i ops) := by
  induction ops generalizing doc with
  | nil =>
    cases hd : doc[i]? with
    | none => simp [runOps, hd]
    | some e => simp [runOps, hd, afterOps, writesOn, listensOn, applyWrites]
  | cons op ops ih =>
    show (runOps ops (applyOp doc op))[i]? = _
    rw [ih, getElem?_applyOp]
    cases hd : doc[i]? with
    | none => rfl
    | some e =>
      simp only [Option.map_some']
      rw [← afterOps_append]; rfl

theorem styleOf_runOps (ops : List Op) (doc : Document) (i : Nat) (h : i < doc.length) :
    styleOf (runOps ops doc) i = applyWrites (writesOn i ops) (styleOf doc i) := by
  unfold styleOf
  rw [getElem?_runOps]
  rw [List.getElem?_eq_getElem h]
  rfl

theorem styleOf_of_le (doc : Document) (i : Nat) (h : doc.length ≤ i) : styleOf doc i = [] := by
  unfold styleOf
  rw [List.getElem?_eq_none h]

theorem listenersOf_runOps (ops : List Op) (doc : Document) (i : Nat) (h : i < doc.length) :
    listenersOf (runOps ops doc) i = listenersOf doc i ++ listensOn i ops := by
  unfold listenersOf
  rw [getElem?_runOps]
  rw [List.getElem?_eq_getElem h]
  rfl

theorem assign_eq (doc : Document) (el : Nat) (patch : List (String × String)) :
    assign doc el patch = runOps (assignOps el patch) doc := by
  unfold assign runOps assignOps
  rw [List.foldl_map]
  rfl

/-- A loop whose body is a list of operations computed from the tree is the
list of all those operations. -/
theorem foldl_eq_runOps (f : Document → Nat → Document) (g : List Node → Nat → List Op)
    (hf : ∀ d x, f d x = runOps (g (tree d) x) d) (xs : List Nat) (doc : Document) :
    xs.foldl f doc = runOps (xs.flatMap (g (tree doc))) doc := by
  induction xs generalizing doc with
  | nil => rfl
  | cons x xs ih =>
    rw [List.foldl_cons, ih, hf, tree_runOps, List.flatMap_cons, runOps_append]

theorem querySelectorAllIn_eq (doc : Document) (root : Nat) (sel : Selector) :
    querySelectorAllIn doc root sel = descendantsOf (tree doc) root sel := by
  simp [querySelectorAllIn, descendantsOf, length_tree]

end Dom

namespace SelectboxFix

open Dom

theorem fixChild_eq (doc : Document) (child : Nat) :
    fixChild doc child = runOps (childOps child) doc :=
  assign_eq doc child childPatch

theorem fixOption_eq (doc : Document) (option : Nat) :
    fixOption doc option = runOps (optionOps (tree doc) option) doc := by
  unfold fixOption optionOps
  simp only [runOps_append]
  have h1 : assign doc option rowPatch = runOps (assignOps option rowPatch) doc := assign_eq _ _ _
  rw [h1]
  generalize hd1 : runOps (assignOps option rowPatch) doc = d1
  have ht1 : tree d1 = tree doc := by rw [← hd1, tree_runOps]
  have h2 : (if isSelected (tree d1) option = true then assign d1 option selectedPatch
      else assign d1 option unselectedPatch)
      = runOps (assignOps option (colourPatch (tree doc) option)) d1 := by
    rw [ht1]; unfold colourPatch
    split <;> exact assign_eq _ _ _
  rw [h2]
  generalize hd2 : runOps (assignOps option (colourPatch (tree doc) option)) d1 = d2
  have ht2 : tree d2 = tree doc := by rw [← hd2, tree_runOps, ht1]
  have h3 : addEventListener (addEventListener (addEventListener d2 option .mouseenter .hoverEnter)
      option .mouseleave .hoverLeave) option .focus .focusOutline
      = runOps [Op.listen option .mouseenter .hoverEnter, Op.listen option .mouseleave .hoverLeave,
          Op.listen option .focus .focusOutline] d2 := rfl
  rw [h3]
  generalize hd3 : runOps [Op.listen option .mouseenter .hoverEnter,
    Op.listen option .mouseleave .hoverLeave, Op.listen option .focus .focusOutline] d2 = d3
  have ht3 : tree d3 = tree doc := by rw [← hd3, tree_runOps, ht2]
  rw [querySelectorAllIn_eq, foldl_eq_runOps fixChild (fun _ c => childOps c) (fun d x => fixChild_eq d x),
    ht3]

theorem fixListbox_eq (doc : Document) (listbox : Nat) :
    fixListbox doc listbox = runOps (listboxOps (tree doc) listbox) doc := by
  unfold fixListbox listboxOps
  simp only [runOps_append]
  rw [assign_eq]
  generalize hd1 : runOps (assignOps listbox listboxPatch) doc = d1
  have ht1 : tree d1 = tree doc := by rw [← hd1, tree_runOps]
  rw [querySelectorAllIn_eq, foldl_eq_runOps fixOption optionOps fixOption_eq, ht1]

/-- The pass is the run of its operation list. -/
theorem fixSelectboxSpacing_eq (doc : Document) :
    fixSelectboxSpacing doc = runOps (passOps (tree doc)) doc := by
  unfold fixSelectboxSpacing passOps querySelectorAll
  simp only [length_tree]
  exact foldl_eq_runOps fixListbox listboxOps fixListbox_eq _ doc

theorem tree_fixSelectboxSpacing (doc : Document) :
    tree (fixSelectboxSpacing doc) = tree doc := by
  rw [fixSelectboxSpacing_eq, tree_runOps]

end SelectboxFix

namespace SelectboxFix

open Dom

theorem mem_writesOn (i : Nat) (ops : List Op) (qv : String × Value) :
    qv ∈ writesOn i ops ↔ ∃ p v, Op.style i p v ∈ ops ∧ qv ∈ expand p v := by
  unfold writesOn
  rw [List.mem_flatMap]
  constructor
  · rintro ⟨op, hop, h⟩
    cases op with
    | style el p v =>
      by_cases he : el = i
      · simp only [he, if_true] at h
        exact ⟨p, v, he ▸ hop, h⟩
      · simp [he] at h
    | listen el t hh => simp at h
  · rintro ⟨p, v, hop, h⟩
    exact ⟨_, hop, by simpa using h⟩

theorem mem_longhandsIn (patch : List (String × String)) (q : String) :
    q ∈ longhandsIn patch ↔ ∃ pv ∈ patch, ∃ qv ∈ expand pv.1 pv.2, qv.1 = q := by
  unfold longhandsIn expandAll
  simp only [List.mem_map, List.mem_flatMap]
  constructor
  · rintro ⟨qv, ⟨pv, hpv, hqv⟩, e⟩
    exact ⟨pv, hpv, qv, hqv, e⟩
  · rintro ⟨pv, hpv, qv, hqv, e⟩
    exact ⟨qv, ⟨pv, hpv, hqv⟩, e⟩

theorem expand_background (v : String) :
    expand "background-color" v = [("background-color", Value.text v)] := by
  simp [expand, longhandsOf]

theorem expand_color (v : String) : expand "color" v = [("color", Value.text v)] := by
  simp [expand, longhandsOf]

theorem mem_listensOn (i : Nat) (ops : List Op) (l : Listener) :
    l ∈ listensOn i ops ↔ Op.listen i l.type l.handler ∈ ops := by
  unfold listensOn
  rw [List.mem_filterMap]
  constructor
  · rintro ⟨op, hop, h⟩
    cases op with
    | style el p v => simp at h
    | listen el t hh =>
      by_cases he : el = i
      · simp only [he, if_true, Option.some.injEq] at h
        rw [← h, ← he]; exact hop
      · simp [he] at h
  · intro h
    exact ⟨_, h, by simp⟩

theorem mem_assignOps (el : Nat) (patch : List (String × String)) (op : Op) :
    op ∈ assignOps el patch ↔ ∃ pv ∈ patch, op = Op.style el pv.1 pv.2 := by
  unfold assignOps
  rw [List.mem_map]
  constructor
  · rintro ⟨pv, h, e⟩; exact ⟨pv, h, e.symm⟩
  · rintro ⟨pv, h, e⟩; exact ⟨pv, h, e.symm⟩

theorem mem_descendantsOf (t : List Node) (root i : Nat) (sel : Selector) :
    i ∈ descendantsOf t root sel ↔ i < t.length ∧ isDescendant t root i = true ∧ sel t i = true := by
  simp [descendantsOf, List.mem_filter, List.mem_range]

theorem isListbox_iff (t : List Node) (i : Nat) :
    isListbox t i = true ↔ i < t.length ∧ listboxSel t i = true := by
  simp [isListbox]

theorem isRow_iff (t : List Node) (i : Nat) :
    isRow t i = true ↔
      ∃ l, isListbox t l = true ∧ i ∈ descendantsOf t l optionSel := by
  simp only [isRow, Bool.and_eq_true, decide_eq_true_eq, List.any_eq_true, List.mem_range,
    isListbox_iff, mem_descendantsOf]
  constructor
  · rintro ⟨⟨h1, h2⟩, l, hl, h3, h4⟩
    exact ⟨l, ⟨hl, h3⟩, h1, h4, h2⟩
  · rintro ⟨l, ⟨hl, h3⟩, h1, h4, h2⟩
    exact ⟨⟨h1, h2⟩, l, hl, h3, h4⟩

theorem isRowDescendant_iff (t : List Node) (i : Nat) :
    isRowDescendant t i = true ↔
      ∃ o, isRow t o = true ∧ i ∈ descendantsOf t o anySel := by
  simp only [isRowDescendant, Bool.and_eq_true, decide_eq_true_eq, List.any_eq_true,
    List.mem_range, mem_descendantsOf, anySel, and_true]
  constructor
  · rintro ⟨h1, o, ho, h2, h3⟩
    exact ⟨o, h2, h1, h3⟩
  · rintro ⟨o, h2, h1, h3⟩
    have ho : o < t.length := by
      have := h2
      simp only [isRow, Bool.and_eq_true, decide_eq_true_eq] at this
      exact this.1.1
    exact ⟨h1, o, ho, h2, h3⟩

/-- The operations of the pass, told apart by the kind of element they act
on. -/
theorem mem_passOps (t : List Node) (op : Op) :
    op ∈ passOps t ↔
      (∃ l, isListbox t l = true ∧
        ((∃ pv ∈ listboxPatch, op = Op.style l pv.1 pv.2) ∨
         ∃ o, o ∈ descendantsOf t l optionSel ∧
          ((∃ pv ∈ rowPatch ++ colourPatch t o, op = Op.style o pv.1 pv.2) ∨
           op = Op.listen o .mouseenter .hoverEnter ∨ op = Op.listen o .mouseleave .hoverLeave ∨
           op = Op.listen o .focus .focusOutline ∨
           ∃ c, c ∈ descendantsOf t o anySel ∧
             ∃ pv ∈ childPatch, op = Op.style c pv.1 pv.2))) := by
  unfold passOps
  simp only [List.mem_flatMap, List.mem_filter, List.mem_range, listboxOps, optionOps, childOps,
    List.mem_append, mem_assignOps, isListbox_iff, List.mem_cons, List.mem_singleton,
    List.not_mem_nil, or_false]
  constructor
  · rintro ⟨l, hl, h⟩
    refine ⟨l, hl, ?_⟩
    rcases h with h | ⟨o, ho, h⟩
    · exact Or.inl h
    · refine Or.inr ⟨o, ho, ?_⟩
      rcases h with ((h | h) | h) | h
      · obtain ⟨pv, hpv, e⟩ := h
        exact Or.inl ⟨pv, Or.inl hpv, e⟩
      · obtain ⟨pv, hpv, e⟩ := h
        exact Or.inl ⟨pv, Or.inr hpv, e⟩
      · rcases h with h | h | h
        · exact Or.inr (Or.inl h)
        · exact Or.inr (Or.inr (Or.inl h))
        · exact Or.inr (Or.inr (Or.inr (Or.inl h)))
      · exact Or.inr (Or.inr (Or.inr (Or.inr h)))
  · rintro ⟨l, hl, h⟩
    refine ⟨l, hl, ?_⟩
    rcases h with h | ⟨o, ho, h⟩
    · exact Or.inl h
    · refine Or.inr ⟨o, ho, ?_⟩
      rcases h with ⟨pv, hpv | hpv, e⟩ | h | h | h | h
      · exact Or.inl (Or.inl (Or.inl ⟨pv, hpv, e⟩))
      · exact Or.inl (Or.inl (Or.inr ⟨pv, hpv, e⟩))
      · exact Or.inl (Or.inr (Or.inl h))
      · exact Or.inl (Or.inr (Or.inr (Or.inl h)))
      · exact Or.inl (Or.inr (Or.inr (Or.inr h)))
      · exact Or.inr h

theorem mem_colourPatch (t : List Node) (o : Nat) (pv : String × String)
    (h : pv ∈ colourPatch t o) : pv.1 = "background-color" ∨ pv.1 = "color" := by
  unfold colourPatch at h
  split at h
  · simp only [selectedPatch, List.mem_cons, List.mem_singleton, List.not_mem_nil, or_false] at h
    rcases h with h | h <;> rw [h] <;> simp
  · simp only [unselectedPatch, List.mem_cons, List.mem_singleton, List.not_mem_nil, or_false] at h
    rcases h with h | h <;> rw [h] <;> simp

/-- Every declaration the pass sets is one of a longhand of the patch set of
the kind of element it acts on. -/
theorem write_classified (t : List Node) (i : Nat) (qv : String × Value)
    (h : qv ∈ writesOn i (passOps t)) :
    (isListbox t i = true ∧ qv.1 ∈ longhandsIn listboxPatch) ∨
    (isRow t i = true ∧ qv.1 ∈ rowProps) ∨
    (isRowDescendant t i = true ∧ qv.1 ∈ longhandsIn childPatch) := by
  rw [mem_writesOn] at h
  obtain ⟨p, v, hop, hqv⟩ := h
  rw [mem_passOps] at hop
  obtain ⟨l, hl, h⟩ := hop
  rcases h with ⟨q, hq, e⟩ | ⟨o, ho, h⟩
  · injection e with e1 e2 e3
    left
    rw [e1]
    refine ⟨hl, ?_⟩
    rw [mem_longhandsIn]
    exact ⟨q, hq, qv, by rw [← e2, ← e3]; exact hqv, rfl⟩
  · have hrow : isRow t o = true := (isRow_iff t o).mpr ⟨l, hl, ho⟩
    rcases h with ⟨q, hq, e⟩ | e | e | e | ⟨c, hc, q, hq, e⟩
    · injection e with e1 e2 e3
      right; left
      rw [e1]
      refine ⟨hrow, ?_⟩
      rcases List.mem_append.mp hq with hq | hq
      · apply List.mem_append_left
        rw [mem_longhandsIn]
        exact ⟨q, hq, qv, by rw [← e2, ← e3]; exact hqv, rfl⟩
      · apply List.mem_append_right
        rcases mem_colourPatch t o q hq with h | h
        · rw [e2, h, expand_background] at hqv
          simp only [List.mem_singleton] at hqv
          rw [hqv]; simp
        · rw [e2, h, expand_color] at hqv
          simp only [List.mem_singleton] at hqv
          rw [hqv]; simp
    · cases e
    · cases e
    · cases e
    · injection e with e1 e2 e3
      right; right
      rw [e1]
      refine ⟨(isRowDescendant_iff t c).mpr ⟨o, hrow, hc⟩, ?_⟩
      rw [mem_longhandsIn]
      exact ⟨q, hq, qv, by rw [← e2, ← e3]; exact hqv, rfl⟩

/-- Every listener the pass registers is registered on a row. -/
theorem listen_classified (t : List Node) (i : Nat) (l : Listener)
    (h : l ∈ listensOn i (passOps t)) :
    isRow t i = true ∧
      (l = ⟨.mouseenter, .hoverEnter⟩ ∨ l = ⟨.mouseleave, .hoverLeave⟩ ∨
       l = ⟨.focus, .focusOutline⟩) := by
  rw [mem_listensOn, mem_passOps] at h
  obtain ⟨lb, hl, h⟩ := h
  rcases h with ⟨q, hq, e⟩ | ⟨o, ho, h⟩
  · cases e
  · have hrow : isRow t o = true := (isRow_iff t o).mpr ⟨lb, hl, ho⟩
    rcases h with ⟨q, hq, e⟩ | e | e | e | ⟨c, hc, q, hq, e⟩
    · cases e
    · injection e with e1 e2 e3
      rw [e1]; exact ⟨hrow, Or.inl (by cases l; simp_all)⟩
    · injection e with e1 e2 e3
      rw [e1]; exact ⟨hrow, Or.inr (Or.inl (by cases l; simp_all))⟩
    · injection e with e1 e2 e3
      rw [e1]; exact ⟨hrow, Or.inr (Or.inr (by cases l; simp_all))⟩
    · cases e

end SelectboxFix

namespace SelectboxFix

open Dom

/-- C4: the inline styles after two consecutive calls of
`fixSelectboxSpacing` are the inline styles after one call, element by
element, for every document. -/
theorem fixSelectboxSpacing_idempotent_styles (doc : Document) :
    (fixSelectboxSpacing (fixSelectboxSpacing doc)).map (fun e => e.style) =
      (fixSelectboxSpacing doc).map (fun e => e.style) := by
  rw [fixSelectboxSpacing_eq (fixSelectboxSpacing doc), tree_fixSelectboxSpacing,
    fixSelectboxSpacing_eq doc]
  apply List.ext_getElem?
  intro i
  rw [List.getElem?_map, List.getElem?_map, getElem?_runOps, getElem?_runOps]
  cases doc[i]? with
  | none => rfl
  | some e =>
    simp only [Option.map_some', afterOps, applyWrites_idem]

/-- C10, as the code has it: `fixSelectboxSpacing` adds and removes no element
and no attribute; on every element a property that is neither in the patch
sets of the kinds the element belongs to nor a longhand of a shorthand in
them keeps its declaration; an element that is neither a listbox, nor a row,
nor a descendant of a row is left as it is; and a document without a listbox
is left unchanged. -/
theorem fixSelectboxSpacing_frame (doc : Document) :
    tree (fixSelectboxSpacing doc) = tree doc ∧
    (∀ i p,
      ¬ (isListbox (tree doc) i = true ∧
        p ∈ propsOf listboxPatch ++ longhandsIn listboxPatch) →
      ¬ (isRow (tree doc) i = true ∧ p ∈ propsOf rowPatch ++ rowProps) →
      ¬ (isRowDescendant (tree doc) i = true ∧
        p ∈ propsOf childPatch ++ longhandsIn childPatch) →
      getDecl p (styleOf (fixSelectboxSpacing doc) i) = getDecl p (styleOf doc i)) ∧
    (∀ i, isListbox (tree doc) i = false → isRow (tree doc) i = false →
      isRowDescendant (tree doc) i = false →
      (fixSelectboxSpacing doc)[i]? = doc[i]?) ∧
    (querySelectorAll doc listboxSel = [] → fixSelectboxSpacing doc = doc) := by
  refine ⟨tree_fixSelectboxSpacing doc, ?_, ?_, ?_⟩
  · intro i p h1 h2 h3
    by_cases hi : i < doc.length
    · rw [fixSelectboxSpacing_eq, styleOf_runOps _ _ _ hi]
      apply getDecl_applyWrites_of_not_mem
      intro pv hpv hp
      rcases write_classified _ _ _ hpv with h | h | h
      · exact h1 ⟨h.1, List.mem_append_right _ (hp ▸ h.2)⟩
      · exact h2 ⟨h.1, List.mem_append_right _ (hp ▸ h.2)⟩
      · exact h3 ⟨h.1, List.mem_append_right _ (hp ▸ h.2)⟩
    · have hle : doc.length ≤ i := Nat.le_of_not_lt hi
      rw [styleOf_of_le _ _ hle, styleOf_of_le]
      rw [fixSelectboxSpacing_eq, length_runOps]; exact hle
  · intro i h1 h2 h3
    rw [fixSelectboxSpacing_eq, getElem?_runOps]
    have hw : writesOn i (passOps (tree doc)) = [] := by
      apply List.eq_nil_iff_forall_not_mem.mpr
      intro pv hpv
      rcases write_classified _ _ _ hpv with h | h | h
      · rw [h1] at h; exact absurd h.1 (by simp)
      · rw [h2] at h; exact absurd h.1 (by simp)
      · rw [h3] at h; exact absurd h.1 (by simp)
    have hl : listensOn i (passOps (tree doc)) = [] := by
      apply List.eq_nil_iff_forall_not_mem.mpr
      intro l hl
      have := (listen_classified _ _ _ hl).1
      rw [h2] at this; exact absurd this (by simp)
    cases doc[i]? with
    | none => rfl
    | some e => simp [afterOps, hw, hl, applyWrites]
  · intro h
    unfold fixSelectboxSpacing
    rw [h]; rfl

end SelectboxFix

/-! ## Ancestors and the order of the writes -/

namespace Dom

theorem parentOf_lt (t : List Node) (i p : Nat) (h : parentOf t i = some p) : p < i := by
  unfold parentOf at h
  split at h
  · split at h
    · split at h
      · injection h with h; omega
      · cases h
    · cases h
  · cases h

theorem ancestor_of_hasAncestor (t : List Node) (a fuel i : Nat)
    (h : hasAncestor t a fuel i = true) : Ancestor t a i := by
  induction fuel generalizing i with
  | zero => simp [hasAncestor] at h
  | succ f ih =>
    unfold hasAncestor at h
    split at h
    · rename_i p hp
      rcases Bool.or_eq_true _ _ ▸ h with h1 | h1
      · have : p = a := by simpa using h1
        exact Ancestor.parent (this ▸ hp)
      · exact Ancestor.step hp (ih p h1)
    · cases h

theorem ancestor_lt {t : List Node} {a i : Nat} (h : Ancestor t a i) : a < i := by
  induction h with
  | parent hp => exact parentOf_lt _ _ _ hp
  | step hp _ ih => exact Nat.lt_trans ih (parentOf_lt _ _ _ hp)

theorem hasAncestor_of_ancestor (t : List Node) (a i : Nat) (h : Ancestor t a i) :
    ∀ fuel, i ≤ fuel → hasAncestor t a fuel i = true := by
  induction h with
  | @parent i hp =>
    intro fuel hf
    have hlt := parentOf_lt _ _ _ hp
    cases fuel with
    | zero => omega
    | succ f => simp [hasAncestor, hp]
  | @step p i hp _ ih =>
    intro fuel hf
    have hlt := parentOf_lt _ _ _ hp
    cases fuel with
    | zero => omega
    | succ f =>
      have := ih f (by omega)
      simp [hasAncestor, hp, this]

theorem isDescendant_iff (t : List Node) (a i : Nat) :
    isDescendant t a i = true ↔ Ancestor t a i :=
  ⟨ancestor_of_hasAncestor t a i i, fun h => hasAncestor_of_ancestor t a i h i (Nat.le_refl i)⟩

theorem ancestor_trans {t : List Node} {a b c : Nat} (h1 : Ancestor t a b)
    (h2 : Ancestor t b c) : Ancestor t a c := by
  induction h2 with
  | parent hp => exact Ancestor.step hp h1
  | step hp _ ih => exact Ancestor.step hp ih

theorem isDescendant_lt (t : List Node) (a i : Nat) (h : isDescendant t a i = true) : a < i :=
  ancestor_lt ((isDescendant_iff t a i).mp h)

theorem isDescendant_trans (t : List Node) (a b c : Nat) (h1 : isDescendant t a b = true)
    (h2 : isDescendant t b c = true) : isDescendant t a c = true :=
  (isDescendant_iff t a c).mpr (ancestor_trans ((isDescendant_iff t a b).mp h1) ((isDescendant_iff t b c).mp h2))

theorem ends_append_right {w1 w2 : List (String × Value)} {q : String} {v : Value}
    (h : Ends w2 q v) :
    Ends (w1 ++ w2) q v := by
  intro s; rw [applyWrites_append]; exact h _

theorem ends_append_left {w1 w2 : List (String × Value)} {q : String} {v : Value}
    (h1 : Ends w1 q v)
    (h2 : Silent w2 q) : Ends (w1 ++ w2) q v := by
  intro s; rw [applyWrites_append, getDecl_applyWrites_of_not_mem w2 q _ h2]; exact h1 _

theorem silent_append {w1 w2 : List (String × Value)} {q : String} (h1 : Silent w1 q)
    (h2 : Silent w2 q) : Silent (w1 ++ w2) q := by
  intro pv hpv
  rcases List.mem_append.mp hpv with h | h
  · exact h1 pv h
  · exact h2 pv h

theorem silent_nil (q : String) : Silent [] q := by
  intro pv hpv; cases hpv

theorem silent_flatMap {α : Type} (xs : List α) (f : α → List (String × Value)) (q : String)
    (h : ∀ x ∈ xs, Silent (f x) q) : Silent (xs.flatMap f) q := by
  intro pv hpv
  obtain ⟨x, hx, hp⟩ := List.mem_flatMap.mp hpv
  exact h x hx pv hp

/-- Blocks that each either end with `v` or are silent, one of which ends
with `v`, end with `v` when run one after the other. -/
theorem ends_flatMap {α : Type} (xs : List α) (f : α → List (String × Value)) (q : String)
    (v : Value)
    (h : ∀ x ∈ xs, Ends (f x) q v ∨ Silent (f x) q) (hex : ∃ x ∈ xs, Ends (f x) q v) :
    Ends (xs.flatMap f) q v := by
  induction xs with
  | nil => obtain ⟨x, hx, _⟩ := hex; cases hx
  | cons x xs ih =>
    rw [List.flatMap_cons]
    by_cases h2 : ∃ y ∈ xs, Ends (f y) q v
    · exact ends_append_right (ih (fun y hy => h y (List.mem_cons_of_mem _ hy)) h2)
    · have hx : Ends (f x) q v := by
        obtain ⟨y, hy, he⟩ := hex
        rcases List.mem_cons.mp hy with hy | hy
        · exact hy ▸ he
        · exact absurd ⟨y, hy, he⟩ h2
      apply ends_append_left hx
      apply silent_flatMap
      intro y hy
      rcases h y (List.mem_cons_of_mem _ hy) with h3 | h3
      · exact absurd ⟨y, hy, h3⟩ h2
      · exact h3

theorem writesOn_flatMap {α : Type} (i : Nat) (xs : List α) (f : α → List Op) :
    writesOn i (xs.flatMap f) = xs.flatMap (fun x => writesOn i (f x)) := by
  induction xs with
  | nil => rfl
  | cons x xs ih => rw [List.flatMap_cons, writesOn_append, ih, List.flatMap_cons]

theorem writesOn_assignOps_self (i : Nat) (patch : List (String × String)) :
    writesOn i (assignOps i patch) = expandAll patch := by
  induction patch with
  | nil => rfl
  | cons pv patch ih =>
    have : writesOn i (assignOps i (pv :: patch)) =
        expand pv.1 pv.2 ++ writesOn i (assignOps i patch) := by
      simp [writesOn, assignOps]
    rw [this, ih]
    rfl

theorem writesOn_assignOps_ne (i el : Nat) (patch : List (String × String)) (h : el ≠ i) :
    writesOn i (assignOps el patch) = [] := by
  induction patch with
  | nil => rfl
  | cons pv patch ih =>
    have : writesOn i (assignOps el (pv :: patch)) = writesOn i (assignOps el patch) := by
      simp [writesOn, assignOps, h]
    rw [this, ih]

end Dom

namespace SelectboxFix

open Dom

theorem writesOn_childOps_flatMap (t : List Node) (o r : Nat)
    (h : isDescendant t o r = false) :
    writesOn r ((descendantsOf t o anySel).flatMap childOps) = [] := by
  rw [writesOn_flatMap, List.flatMap_eq_nil_iff]
  intro c hc
  have hc2 := ((mem_descendantsOf t o c anySel).mp hc).2.1
  apply writesOn_assignOps_ne
  intro hcr
  rw [hcr, h] at hc2
  cases hc2

theorem isDescendant_irrefl (t : List Node) (i : Nat) : isDescendant t i i = false := by
  cases h : isDescendant t i i with
  | false => rfl
  | true => exact absurd (isDescendant_lt t i i h) (Nat.lt_irrefl i)

theorem writesOn_listens (r o : Nat) :
    writesOn r [Op.listen o .mouseenter .hoverEnter, Op.listen o .mouseleave .hoverLeave,
      Op.listen o .focus .focusOutline] = [] := rfl

/-- The writes of the row block of `r` on `r` itself. -/
theorem writesOn_optionOps_self (t : List Node) (r : Nat) :
    writesOn r (optionOps t r) = expandAll rowPatch ++ expandAll (colourPatch t r) := by
  unfold optionOps
  rw [writesOn_append, writesOn_append, writesOn_append, writesOn_assignOps_self,
    writesOn_assignOps_self, writesOn_listens,
    writesOn_childOps_flatMap t r r (isDescendant_irrefl t r)]
  simp

/-- The row block of `o` does not write on an element that is neither `o` nor
below `o`. -/
theorem writesOn_optionOps_other (t : List Node) (o r : Nat) (h1 : o ≠ r)
    (h2 : isDescendant t o r = false) : writesOn r (optionOps t o) = [] := by
  unfold optionOps
  rw [writesOn_append, writesOn_append, writesOn_append, writesOn_assignOps_ne _ _ _ h1,
    writesOn_assignOps_ne _ _ _ h1, writesOn_listens, writesOn_childOps_flatMap t o r h2]
  rfl

theorem expandAll_selected :
    expandAll selectedPatch =
      [("background-color", Value.text "#10b981"), ("color", Value.text "#ffffff")] := by
  decide

theorem expandAll_unselected :
    expandAll unselectedPatch =
      [("background-color", Value.text "#ffffff"), ("color", Value.text "#0f172a")] := by
  decide

/-- The background colour a row receives. -/
theorem ends_background (t : List Node) (r : Nat) :
    Ends (expandAll rowPatch ++ expandAll (colourPatch t r)) "background-color"
      (Value.text (if isSelected t r then "#10b981" else "#ffffff")) := by
  apply ends_append_right
  intro s
  unfold colourPatch
  cases isSelected t r
  · simp only [Bool.false_eq_true, if_false, expandAll_unselected, applyWrites, List.foldl]
    rw [getDecl_setDecl_ne _ _ _ _ _ (by decide), getDecl_setDecl_same]
  · simp only [if_true, expandAll_selected, applyWrites, List.foldl]
    rw [getDecl_setDecl_ne _ _ _ _ _ (by decide), getDecl_setDecl_same]

/-- The text colour a row receives. -/
theorem ends_color (t : List Node) (r : Nat) :
    Ends (expandAll rowPatch ++ expandAll (colourPatch t r)) "color"
      (Value.text (if isSelected t r then "#ffffff" else "#0f172a")) := by
  apply ends_append_right
  intro s
  unfold colourPatch
  cases isSelected t r
  · simp only [Bool.false_eq_true, if_false, expandAll_unselected, applyWrites, List.foldl]
    rw [getDecl_setDecl_same]
  · simp only [if_true, expandAll_selected, applyWrites, List.foldl]
    rw [getDecl_setDecl_same]

/-- Among the row blocks of an increasing list of rows that has `r`, the last
write of `q` on `r` is the one of the block of `r`. -/
theorem ends_options (t : List Node) (r : Nat) (q : String) (v : Value)
    (hself : Ends (writesOn r (optionOps t r)) q v) (os : List Nat)
    (hs : os.Pairwise (fun a b => a < b)) (hr : r ∈ os) :
    Ends (os.flatMap (fun o => writesOn r (optionOps t o))) q v := by
  induction os with
  | nil => cases hr
  | cons o os ih =>
    rw [List.flatMap_cons]
    have hs2 := List.pairwise_cons.mp hs
    by_cases hin : r ∈ os
    · exact ends_append_right (ih hs2.2 hin)
    · have hro : r = o := by
        rcases List.mem_cons.mp hr with h | h
        · exact h
        · exact absurd h hin
      subst hro
      apply ends_append_left hself
      apply silent_flatMap
      intro o2 ho2
      have hlt : r < o2 := hs2.1 o2 ho2
      have hnd : isDescendant t o2 r = false := by
        cases h : isDescendant t o2 r with
        | false => rfl
        | true => exact absurd (isDescendant_lt t o2 r h) (by omega)
      rw [writesOn_optionOps_other t o2 r (by omega) hnd]
      exact silent_nil q

theorem descendantsOf_sorted (t : List Node) (root : Nat) (sel : Selector) :
    (descendantsOf t root sel).Pairwise (fun a b => a < b) :=
  List.Pairwise.filter _ (List.pairwise_lt_range _)

theorem silent_assignOps (i el : Nat) (patch : List (String × String)) (q : String)
    (h : q ∉ longhandsIn patch) : Silent (writesOn i (assignOps el patch)) q := by
  intro qv hqv hq
  rw [mem_writesOn] at hqv
  obtain ⟨p, v, hop, hm⟩ := hqv
  rw [mem_assignOps] at hop
  obtain ⟨x, hx, e⟩ := hop
  injection e with _ e2 e3
  apply h
  rw [mem_longhandsIn]
  exact ⟨x, hx, qv, by rw [← e2, ← e3]; exact hm, hq⟩

/-- The block of a listbox either ends the colour property `q` of the row `r`
with the value of the row block, when `r` is a row of the listbox, or does not
write `q` on `r`. -/
theorem listbox_block (t : List Node) (l r : Nat) (q : String) (v : Value)
    (hq : q ∉ longhandsIn listboxPatch)
    (hself : Ends (writesOn r (optionOps t r)) q v) (hopt : optionSel t r = true)
    (hlen : r < t.length) :
    (r ∈ descendantsOf t l optionSel → Ends (writesOn r (listboxOps t l)) q v) ∧
    (r ∉ descendantsOf t l optionSel → Silent (writesOn r (listboxOps t l)) q) := by
  unfold listboxOps
  rw [writesOn_append, writesOn_flatMap]
  constructor
  · intro hr
    exact ends_append_right (ends_options t r q v hself _ (descendantsOf_sorted t l optionSel) hr)
  · intro hr
    apply silent_append (silent_assignOps r l listboxPatch q hq)
    apply silent_flatMap
    intro o ho
    have ho2 := (mem_descendantsOf t l o optionSel).mp ho
    have hne : o ≠ r := fun h => hr (h ▸ ho)
    have hnd : isDescendant t o r = false := by
      cases h : isDescendant t o r with
      | false => rfl
      | true =>
        exfalso
        apply hr
        exact (mem_descendantsOf t l r optionSel).mpr
          ⟨hlen, isDescendant_trans t l o r ho2.2.1 h, hopt⟩
    rw [writesOn_optionOps_other t o r hne hnd]
    exact silent_nil q

/-- After the pass, a colour property of a row has the value of the row block. -/
theorem row_property_after_pass (doc : Document) (r : Nat) (q : String) (v : Value)
    (hq : q ∉ longhandsIn listboxPatch)
    (hself : Ends (writesOn r (optionOps (tree doc) r)) q v)
    (hrow : isRow (tree doc) r = true) :
    getDecl q (styleOf (fixSelectboxSpacing doc) r) = some ⟨q, v, false⟩ := by
  obtain ⟨l, hl, hr⟩ := (isRow_iff _ _).mp hrow
  have hr2 := (mem_descendantsOf _ _ _ _).mp hr
  have hlen : r < doc.length := by rw [← length_tree]; exact hr2.1
  rw [fixSelectboxSpacing_eq, styleOf_runOps _ _ _ hlen]
  unfold passOps
  rw [writesOn_flatMap]
  apply ends_flatMap
  · intro x _
    have := listbox_block (tree doc) x r q v hq hself hr2.2.2 hr2.1
    by_cases hx : r ∈ descendantsOf (tree doc) x optionSel
    · exact Or.inl (this.1 hx)
    · exact Or.inr (this.2 hx)
  · refine ⟨l, ?_, (listbox_block (tree doc) l r q v hq hself hr2.2.2 hr2.1).1 hr⟩
    rw [List.mem_filter, List.mem_range]
    exact (isListbox_iff _ _).mp hl

end SelectboxFix

/-! ## Attribute changes that keep the shape of the tree -/

namespace Dom

theorem tree_modify_node (doc : Document) (g : Node → Node) (i : Nat) :
    tree (doc.modify (fun e => { e with node := g e.node }) i) = (tree doc).modify g i := by
  induction doc generalizing i with
  | nil => simp [tree]
  | cons e es ih =>
    cases i with
    | zero => simp [tree, List.modify_zero_cons]
    | succ n =>
      have := ih n
      simp only [tree] at this ⊢
      simp [List.modify_succ_cons, this]

theorem attr_setAttr_ne (name value m : String) (attrs : List (String × String)) (h : m ≠ name) :
    ((setAttr name value attrs).find? (fun kv => kv.1 = m)) =
      (attrs.find? (fun kv => kv.1 = m)) := by
  induction attrs with
  | nil => simp [setAttr, List.find?, Ne.symm h]
  | cons kv kvs ih =>
    by_cases h1 : kv.1 = name
    · have h2 : ¬ kv.1 = m := fun h2 => h (h2.symm.trans h1)
      simp [setAttr, List.find?, h1, h2, Ne.symm h]
    · by_cases h2 : kv.1 = m
      · subst h2
        simp [setAttr, List.find?, h1]
      · simp [setAttr, List.find?, h1, h2, ih]

theorem attr_setAttr_same (name value : String) (attrs : List (String × String)) :
    ((setAttr name value attrs).find? (fun kv => kv.1 = name)).map (fun kv => kv.2)
      = some value := by
  induction attrs with
  | nil => simp [setAttr, List.find?]
  | cons kv kvs ih =>
    by_cases h1 : kv.1 = name
    · simp [setAttr, List.find?, h1]
    · simp [setAttr, List.find?, h1, ih]

theorem getElem?_tree_setAttribute (doc : Document) (i : Nat) (name value : String) (j : Nat) :
    (tree (setAttribute doc i name value))[j]? =
      ((tree doc)[j]?).map (fun nd =>
        if i = j then { nd with attrs := setAttr name value nd.attrs } else nd) := by
  unfold setAttribute
  rw [tree_modify_node doc (fun nd => { nd with attrs := setAttr name value nd.attrs }) i,
    List.getElem?_modify]
  rfl

/-- Setting an attribute other than `role` keeps the shape of the tree. -/
theorem sameShape_setAttribute (doc : Document) (i : Nat) (name value : String)
    (h : name ≠ "role") : SameShape (tree (setAttribute doc i name value)) (tree doc) := by
  refine ⟨?_, ?_, ?_, ?_⟩
  · simp [tree, setAttribute]
  · intro j
    unfold tagOf
    rw [getElem?_tree_setAttribute]
    cases (tree doc)[j]? with
    | none => rfl
    | some nd => by_cases hij : i = j <;> simp [hij]
  · intro j
    unfold parentOf
    rw [getElem?_tree_setAttribute]
    cases (tree doc)[j]? with
    | none => rfl
    | some nd => by_cases hij : i = j <;> simp [hij]
  · intro j
    unfold getAttribute
    rw [getElem?_tree_setAttribute]
    cases (tree doc)[j]? with
    | none => rfl
    | some nd =>
      by_cases hij : i = j
      · simp only [hij, Option.map_some', if_true, Node.attr]
        rw [attr_setAttr_ne name value "role" nd.attrs (Ne.symm h)]
      · simp [hij]

theorem getAttribute_setAttribute_same (doc : Document) (i : Nat) (name value : String)
    (h : i < doc.length) :
    getAttribute (tree (setAttribute doc i name value)) i name = some value := by
  unfold getAttribute
  rw [getElem?_tree_setAttribute]
  have : i < (tree doc).length := by rw [length_tree]; exact h
  rw [List.getElem?_eq_getElem this]
  simp only [Option.map_some', if_true, Node.attr]
  exact attr_setAttr_same name value _

theorem sameShape_hasAncestor {t1 t2 : List Node} (h : SameShape t1 t2) (a fuel i : Nat) :
    hasAncestor t1 a fuel i = hasAncestor t2 a fuel i := by
  induction fuel generalizing i with
  | zero => rfl
  | succ f ih =>
    unfold hasAncestor
    rw [h.2.2.1 i]
    cases parentOf t2 i with
    | none => rfl
    | some p => simp only [ih p]

theorem sameShape_isDescendant {t1 t2 : List Node} (h : SameShape t1 t2) (a i : Nat) :
    isDescendant t1 a i = isDescendant t2 a i :=
  sameShape_hasAncestor h a i i

end Dom

namespace SelectboxFix

open Dom

theorem sameShape_listboxSel {t1 t2 : List Node} (h : SameShape t1 t2) (i : Nat) :
    listboxSel t1 i = listboxSel t2 i := by
  unfold listboxSel
  rw [h.2.1 i, h.2.2.2 i]

theorem sameShape_optionSel {t1 t2 : List Node} (h : SameShape t1 t2) (i : Nat) :
    optionSel t1 i = optionSel t2 i := by
  unfold optionSel
  rw [h.2.1 i, h.2.2.2 i]

theorem sameShape_isRow {t1 t2 : List Node} (h : SameShape t1 t2) (i : Nat) :
    isRow t1 i = isRow t2 i := by
  unfold isRow
  rw [h.1, sameShape_optionSel h i]
  congr 1
  congr 1
  funext l
  rw [sameShape_listboxSel h l, sameShape_isDescendant h l i]

end SelectboxFix

namespace SelectboxFix

open Dom

theorem coloursOf_after_pass (doc : Document) (i : Nat) (hrow : isRow (tree doc) i = true) :
    coloursOf (fixSelectboxSpacing doc) i = variant (isSelected (tree doc) i) := by
  have h1 := row_property_after_pass doc i "background-color" _ (by decide)
    (by rw [writesOn_optionOps_self]; exact ends_background (tree doc) i) hrow
  have h2 := row_property_after_pass doc i "color" _ (by decide)
    (by rw [writesOn_optionOps_self]; exact ends_color (tree doc) i) hrow
  unfold coloursOf variant
  rw [h1, h2]
  cases isSelected (tree doc) i <;> rfl

theorem isRow_lt (t : List Node) (i : Nat) (h : isRow t i = true) : i < t.length := by
  simp only [isRow, Bool.and_eq_true, decide_eq_true_eq] at h
  exact h.1.1

theorem coloursOf_after_toggle (doc : Document) (i : Nat) (v : String)
    (hrow : isRow (tree doc) i = true) :
    isRow (tree (setAttribute doc i "aria-selected" v)) i = true ∧
    coloursOf (fixSelectboxSpacing (setAttribute doc i "aria-selected" v)) i
      = variant (v == "true") := by
  have hs := sameShape_setAttribute doc i "aria-selected" v (by decide)
  have hrow2 : isRow (tree (setAttribute doc i "aria-selected" v)) i = true := by
    rw [sameShape_isRow hs]; exact hrow
  refine ⟨hrow2, ?_⟩
  rw [coloursOf_after_pass _ _ hrow2]
  have hlen : i < doc.length := by rw [← length_tree]; exact isRow_lt _ _ hrow
  unfold isSelected
  rw [getAttribute_setAttribute_same doc i _ v hlen]
  congr 1

/-- C5: after `fixSelectboxSpacing`, the `background-color` and `color`
declarations of every `li` inside a listbox are those of the selected variant
when `aria-selected` is `true` at the pass and those of the other variant
otherwise, whatever the inline style was before and however rows and listboxes
are nested; setting the attribute and running the pass again gives the variant
of the new value, and so does setting it once more. -/
theorem fixSelectboxSpacing_row_colours (doc : Document) (i : Nat)
    (hrow : isRow (tree doc) i = true) :
    coloursOf (fixSelectboxSpacing doc) i = variant (isSelected (tree doc) i) ∧
    (∀ v, coloursOf (fixSelectboxSpacing
        (setAttribute (fixSelectboxSpacing doc) i "aria-selected" v)) i
      = variant (v == "true")) ∧
    (∀ v w, coloursOf (fixSelectboxSpacing
        (setAttribute (fixSelectboxSpacing
          (setAttribute (fixSelectboxSpacing doc) i "aria-selected" v)) i "aria-selected" w)) i
      = variant (w == "true")) := by
  have hrow1 : isRow (tree (fixSelectboxSpacing doc)) i = true := by
    rw [tree_fixSelectboxSpacing]; exact hrow
  refine ⟨coloursOf_after_pass doc i hrow, ?_, ?_⟩
  · intro v
    exact (coloursOf_after_toggle _ i v hrow1).2
  · intro v w
    have h2 := (coloursOf_after_toggle _ i v hrow1).1
    have hrow2 : isRow (tree (fixSelectboxSpacing
        (setAttribute (fixSelectboxSpacing doc) i "aria-selected" v))) i = true := by
      rw [tree_fixSelectboxSpacing]; exact h2
    exact (coloursOf_after_toggle _ i w hrow2).2

/-- Witness of C5: the nested row of the sample page, which has no
`aria-selected` attribute, gets the colours of a row that is not selected. -/
theorem fixSelectboxSpacing_row_colours_witness :
    coloursOf (fixSelectboxSpacing Demo.page) 7 = variant false :=
  (fixSelectboxSpacing_row_colours Demo.page 7 (by decide)).1

/-- Witness of C10: on the sample page the font weight of the selected row
keeps its declaration, and the paragraph beside the listbox is left as it is. -/
theorem fixSelectboxSpacing_frame_witness :
    getDecl "font-weight" (styleOf (fixSelectboxSpacing Demo.page) 4)
      = getDecl "font-weight" (styleOf Demo.page 4) ∧
    (fixSelectboxSpacing Demo.page)[8]? = Demo.page[8]? :=
  ⟨(fixSelectboxSpacing_frame Demo.page).2.1 4 "font-weight" (by decide) (by decide) (by decide),
   (fixSelectboxSpacing_frame Demo.page).2.2.1 8 (by decide) (by decide) (by decide)⟩

end SelectboxFix

/-! ## The pointer handlers -/

namespace Dom

open SelectboxFix

theorem tree_setPropertyImportant (d : Document) (el : Nat) (p v : String) :
    tree (setPropertyImportant d el p v) = tree d :=
  tree_modify d _ _ (fun _ => rfl)

theorem tree_setStyle (d : Document) (el : Nat) (p v : String) :
    tree (setStyle d el p v) = tree d :=
  tree_modify d _ _ (fun _ => rfl)

theorem tree_assignImportant (d : Document) (el : Nat) (patch : List (String × String)) :
    tree (assignImportant d el patch) = tree d := by
  unfold assignImportant
  induction patch generalizing d with
  | nil => rfl
  | cons pv patch ih => rw [List.foldl_cons, ih, tree_setPropertyImportant]

theorem tree_runHandler (h : Handler) (d : Document) (el : Nat) :
    tree (runHandler h d el) = tree d := by
  cases h
  · unfold runHandler; simp only; split
    · exact tree_assignImportant _ _ _
    · rfl
  · unfold runHandler; simp only; split
    · exact tree_assignImportant _ _ _
    · rfl
  · exact tree_assignImportant _ _ _
  · exact tree_setStyle _ _ _ _

theorem styleOf_setPropertyImportant (d : Document) (el : Nat) (p v : String)
    (h : el < d.length) :
    styleOf (setPropertyImportant d el p v) el = applyImportant (expand p v) (styleOf d el) := by
  unfold styleOf setPropertyImportant
  rw [List.getElem?_modify_eq, List.getElem?_eq_getElem h]
  rfl

theorem length_setPropertyImportant (d : Document) (el : Nat) (p v : String) :
    (setPropertyImportant d el p v).length = d.length := by
  unfold setPropertyImportant
  exact List.length_modify _ _ _

theorem applyImportant_append (w1 w2 : List (String × Value)) (s : Style) :
    applyImportant (w1 ++ w2) s = applyImportant w2 (applyImportant w1 s) := by
  simp [applyImportant, List.foldl_append]

/-- The style of an element after a run of calls of `setProperty` with
`important` priority. -/
theorem styleOf_assignImportant (d : Document) (el : Nat) (patch : List (String × String))
    (h : el < d.length) :
    styleOf (assignImportant d el patch) el = applyImportant (expandAll patch) (styleOf d el) := by
  induction patch generalizing d with
  | nil => rfl
  | cons x rest ih =>
    show styleOf (assignImportant (setPropertyImportant d el x.1 x.2) el rest) el = _
    rw [ih _ (by rw [length_setPropertyImportant]; exact h),
      styleOf_setPropertyImportant _ _ _ _ h]
    show _ = applyImportant (expand x.1 x.2 ++ expandAll rest) (styleOf d el)
    rw [applyImportant_append]

theorem getDecl_applyImportant_of_not_mem (w : List (String × Value)) (q : String) (s : Style)
    (h : ∀ pv ∈ w, pv.1 ≠ q) : getDecl q (applyImportant w s) = getDecl q s := by
  induction w generalizing s with
  | nil => rfl
  | cons x w ih =>
    show getDecl q (applyImportant w (setDecl x.1 x.2 true s)) = _
    rw [ih _ (fun pv hpv => h pv (List.mem_cons_of_mem _ hpv))]
    exact getDecl_setDecl_ne _ _ _ _ _ (Ne.symm (h x (List.mem_cons_self _ _)))

/-- A run of important writes whose first write is the only one that names
its property leaves that property with the value and priority of the first
write. -/
theorem getDecl_applyImportant_first (w : List (String × Value)) (p : String) (v : Value)
    (s : Style) (hw : w.head? = some (p, v)) (hr : ∀ pv ∈ w.tail, pv.1 ≠ p) :
    getDecl p (applyImportant w s) = some ⟨p, v, true⟩ := by
  cases w with
  | nil => cases hw
  | cons x rest =>
    simp only [List.head?_cons, Option.some.injEq] at hw
    subst hw
    show getDecl p (applyImportant rest (setDecl p v true s)) = _
    rw [getDecl_applyImportant_of_not_mem rest p _ hr, getDecl_setDecl_same]

/-- The `mouseenter` handler on a row that is not selected at event time. -/
theorem hoverEnter_unselected (d : Document) (i : Nat) (h : i < d.length)
    (hs : getAttribute (tree d) i "aria-selected" ≠ some "true") :
    getDecl "background-color" (styleOf (runHandler .hoverEnter d i) i)
      = some ⟨"background-color", .text "#f3f4f6", true⟩ := by
  have : (getAttribute (tree d) i "aria-selected" != some "true") = true := by
    simpa using hs
  unfold runHandler
  simp only [this, if_true]
  rw [styleOf_assignImportant d i _ h]
  exact getDecl_applyImportant_first _ _ _ _ (by decide) (by decide)

/-- The `mouseleave` handler on a row that is not selected at event time. -/
theorem hoverLeave_unselected (d : Document) (i : Nat) (h : i < d.length)
    (hs : getAttribute (tree d) i "aria-selected" ≠ some "true") :
    getDecl "background-color" (styleOf (runHandler .hoverLeave d i) i)
      = some ⟨"background-color", .text "#ffffff", true⟩ := by
  have : (getAttribute (tree d) i "aria-selected" != some "true") = true := by
    simpa using hs
  unfold runHandler
  simp only [this, if_true]
  rw [styleOf_assignImportant d i _ h]
  exact getDecl_applyImportant_first _ _ _ _ (by decide) (by decide)

/-- Neither pointer handler touches a row that is selected at event time. -/
theorem hover_selected (d : Document) (i : Nat)
    (hs : getAttribute (tree d) i "aria-selected" = some "true") :
    runHandler .hoverEnter d i = d ∧ runHandler .hoverLeave d i = d := by
  unfold runHandler
  simp [hs]

theorem length_runHandler (h : Handler) (d : Document) (el : Nat) :
    (runHandler h d el).length = d.length := by
  rw [← length_tree, tree_runHandler, length_tree]

/-- The effect of one and the same handler run once or more. -/
theorem foldl_handler (hd : Handler) (i : Nat) (ls : List Listener)
    (hall : ∀ l ∈ ls, l.handler = hd) (d : Document) :
    tree (ls.foldl (fun d l => runHandler l.handler d i) d) = tree d ∧
    (runHandler hd d i = d → ls.foldl (fun d l => runHandler l.handler d i) d = d) ∧
    (ls ≠ [] → ∃ d2, tree d2 = tree d ∧
      ls.foldl (fun d l => runHandler l.handler d i) d = runHandler hd d2 i) := by
  induction ls using List.reverseRecOn with
  | nil => exact ⟨rfl, fun _ => rfl, fun h => absurd rfl h⟩
  | append_singleton ls l ih =>
    have hl : l.handler = hd := hall l (by simp)
    have ih2 := ih (fun x hx => hall x (List.mem_append_left _ hx))
    rw [List.foldl_append]
    simp only [List.foldl_cons, List.foldl_nil, hl]
    refine ⟨?_, ?_, ?_⟩
    · rw [tree_runHandler]; exact ih2.1
    · intro hfix; rw [ih2.2.1 hfix]; exact hfix
    · intro _; exact ⟨_, ih2.1, rfl⟩

end Dom

namespace SelectboxFix

open Dom

theorem listeners_after_pass (doc : Document) (i : Nat) (hrow : isRow (tree doc) i = true) :
    (⟨.mouseenter, .hoverEnter⟩ : Listener) ∈ listenersOf (fixSelectboxSpacing doc) i ∧
    (⟨.mouseleave, .hoverLeave⟩ : Listener) ∈ listenersOf (fixSelectboxSpacing doc) i := by
  have hlen : i < doc.length := by rw [← length_tree]; exact isRow_lt _ _ hrow
  obtain ⟨l, hl, hr⟩ := (isRow_iff _ _).mp hrow
  rw [fixSelectboxSpacing_eq, listenersOf_runOps _ _ _ hlen]
  constructor
  · apply List.mem_append_right
    rw [mem_listensOn, mem_passOps]
    exact ⟨l, hl, Or.inr ⟨i, hr, Or.inr (Or.inl rfl)⟩⟩
  · apply List.mem_append_right
    rw [mem_listensOn, mem_passOps]
    exact ⟨l, hl, Or.inr ⟨i, hr, Or.inr (Or.inr (Or.inl rfl))⟩⟩

/-- The listeners of a row after the pass are those of the script when the
listeners before the pass were. -/
theorem listeners_of_script (doc : Document) (i : Nat)
    (hinit : ∀ l ∈ listenersOf doc i, l = ⟨.mouseenter, .hoverEnter⟩ ∨
      l = ⟨.mouseleave, .hoverLeave⟩ ∨ l = ⟨.focus, .focusOutline⟩) :
    ∀ l ∈ listenersOf (fixSelectboxSpacing doc) i, l = ⟨.mouseenter, .hoverEnter⟩ ∨
      l = ⟨.mouseleave, .hoverLeave⟩ ∨ l = ⟨.focus, .focusOutline⟩ := by
  intro l hl
  by_cases hlen : i < doc.length
  · rw [fixSelectboxSpacing_eq, listenersOf_runOps _ _ _ hlen] at hl
    rcases List.mem_append.mp hl with h | h
    · exact hinit l h
    · exact (listen_classified _ _ _ h).2
  · exfalso
    unfold listenersOf at hl
    rw [List.getElem?_eq_none] at hl
    · cases hl
    · rw [fixSelectboxSpacing_eq, length_runOps]; omega

/-- C6: the pass registers the two pointer handlers on every row.  Run on a
row whose `aria-selected` attribute is not `true` at event time, the
`mouseenter` handler leaves `background-color: #f3f4f6 !important` and the
`mouseleave` handler leaves `background-color: #ffffff !important`; run on a
row whose attribute is `true` at event time, either handler leaves the
document as it is.  The same holds for the delivery of the two events to a
row whose listeners are those of the script. -/
theorem hover_handlers (doc : Document) (i : Nat) (hrow : isRow (tree doc) i = true) :
    ((⟨.mouseenter, .hoverEnter⟩ : Listener) ∈ listenersOf (fixSelectboxSpacing doc) i ∧
     (⟨.mouseleave, .hoverLeave⟩ : Listener) ∈ listenersOf (fixSelectboxSpacing doc) i) ∧
    (∀ d : Document, i < d.length →
      (getAttribute (tree d) i "aria-selected" ≠ some "true" →
        getDecl "background-color" (styleOf (runHandler .hoverEnter d i) i)
          = some ⟨"background-color", .text "#f3f4f6", true⟩ ∧
        getDecl "background-color" (styleOf (runHandler .hoverLeave d i) i)
          = some ⟨"background-color", .text "#ffffff", true⟩) ∧
      (getAttribute (tree d) i "aria-selected" = some "true" →
        runHandler .hoverEnter d i = d ∧ runHandler .hoverLeave d i = d)) ∧
    ((∀ l ∈ listenersOf doc i, l = ⟨.mouseenter, .hoverEnter⟩ ∨
        l = ⟨.mouseleave, .hoverLeave⟩ ∨ l = ⟨.focus, .focusOutline⟩) →
      ∀ d : Document, i < d.length →
        listenersOf d i = listenersOf (fixSelectboxSpacing doc) i →
        (getAttribute (tree d) i "aria-selected" ≠ some "true" →
          getDecl "background-color" (styleOf (dispatchEvent d i .mouseenter) i)
            = some ⟨"background-color", .text "#f3f4f6", true⟩ ∧
          getDecl "background-color" (styleOf (dispatchEvent d i .mouseleave) i)
            = some ⟨"background-color", .text "#ffffff", true⟩) ∧
        (getAttribute (tree d) i "aria-selected" = some "true" →
          dispatchEvent d i .mouseenter = d ∧ dispatchEvent d i .mouseleave = d)) := by
  have hreg := listeners_after_pass doc i hrow
  refine ⟨hreg, ?_, ?_⟩
  · intro d hd
    exact ⟨fun hs => ⟨hoverEnter_unselected d i hd hs, hoverLeave_unselected d i hd hs⟩,
      fun hs => hover_selected d i hs⟩
  · intro hinit d hd hls
    have hall := listeners_of_script doc i hinit
    have hE : ∀ l ∈ (listenersOf d i).filter (fun l => l.type == EventType.mouseenter),
        l.handler = Handler.hoverEnter := by
      intro l hl
      rw [hls, List.mem_filter] at hl
      rcases hall l hl.1 with h | h | h
      · rw [h]
      · rw [h] at hl; exact absurd hl.2 (by decide)
      · rw [h] at hl; exact absurd hl.2 (by decide)
    have hL : ∀ l ∈ (listenersOf d i).filter (fun l => l.type == EventType.mouseleave),
        l.handler = Handler.hoverLeave := by
      intro l hl
      rw [hls, List.mem_filter] at hl
      rcases hall l hl.1 with h | h | h
      · rw [h] at hl; exact absurd hl.2 (by decide)
      · rw [h]
      · rw [h] at hl; exact absurd hl.2 (by decide)
    have hneE : (listenersOf d i).filter (fun l => l.type == EventType.mouseenter) ≠ [] := by
      intro h
      have : (⟨.mouseenter, .hoverEnter⟩ : Listener) ∈
          (listenersOf d i).filter (fun l => l.type == EventType.mouseenter) := by
        rw [hls, List.mem_filter]; exact ⟨hreg.1, by decide⟩
      rw [h] at this; cases this
    have hneL : (listenersOf d i).filter (fun l => l.type == EventType.mouseleave) ≠ [] := by
      intro h
      have : (⟨.mouseleave, .hoverLeave⟩ : Listener) ∈
          (listenersOf d i).filter (fun l => l.type == EventType.mouseleave) := by
        rw [hls, List.mem_filter]; exact ⟨hreg.2, by decide⟩
      rw [h] at this; cases this
    have fE := foldl_handler .hoverEnter i _ hE d
    have fL := foldl_handler .hoverLeave i _ hL d
    constructor
    · intro hs
      constructor
      · obtain ⟨d2, ht, he⟩ := fE.2.2 hneE
        unfold dispatchEvent
        rw [he]
        apply hoverEnter_unselected
        · rw [← length_tree, ht, length_tree]; exact hd
        · rw [ht]; exact hs
      · obtain ⟨d2, ht, he⟩ := fL.2.2 hneL
        unfold dispatchEvent
        rw [he]
        apply hoverLeave_unselected
        · rw [← length_tree, ht, length_tree]; exact hd
        · rw [ht]; exact hs
    · intro hs
      exact ⟨fE.2.1 (hover_selected d i hs).1, fL.2.1 (hover_selected d i hs).2⟩

/-- Witness of C6: on the sample page after a pass, the pointer entering the
row that is not selected leaves the hover background with `important`
priority. -/
theorem hover_handlers_witness :
    getDecl "background-color"
      (styleOf (dispatchEvent (fixSelectboxSpacing Demo.page) 6 .mouseenter) 6)
      = some ⟨"background-color", .text "#f3f4f6", true⟩ :=
  ((hover_handlers Demo.page 6 (by decide)).2.2 (by decide)
    (fixSelectboxSpacing Demo.page) (by decide) rfl).1 (by decide) |>.1

end SelectboxFix
namespace SafariDetector
open Dom

theorem fixInput_eq (doc : Document) (i : Nat) :
    fixInput doc i = runOps [Op.style i "font-size" "16px", Op.listen i .focus .focusTransform] doc :=
  rfl

theorem fixElements_eq (doc : Document) :
    fixElements doc = runOps (elementOps (tree doc)) doc := by
  unfold fixElements elementOps querySelectorAll
  simp only [runOps_append, length_tree]
  rw [foldl_eq_runOps fixInput
    (fun _ i => [Op.style i "font-size" "16px", Op.listen i .focus .focusTransform])
    (fun d x => fixInput_eq d x)]
  generalize hd1 : runOps _ doc = d1
  have ht1 : tree d1 = tree doc := by rw [← hd1, tree_runOps]
  have hl1 : d1.length = doc.length := by rw [← length_tree, ht1, length_tree]
  rw [ht1, hl1]
  rw [foldl_eq_runOps (fun d el => assign d el animatedPatch)
    (fun _ i => assignOps i animatedPatch) (fun d x => assign_eq d x _)]
  generalize hd2 : runOps _ d1 = d2
  have ht2 : tree d2 = tree doc := by rw [← hd2, tree_runOps, ht1]
  have hl2 : d2.length = doc.length := by rw [← length_tree, ht2, length_tree]
  rw [ht2, hl2]
  rw [foldl_eq_runOps (fun d el => assign d el touchPatch)
    (fun _ i => assignOps i touchPatch) (fun d x => assign_eq d x _)]

end SafariDetector

/-! ## The fallback style pass of the detector script -/

namespace Dom

theorem styleOf_appendChild (d : Document) (h : Nat) (n : Node) (i : Nat) (hi : i < d.length) :
    styleOf (appendChild d h n) i = styleOf d i := by
  unfold styleOf appendChild
  rw [List.getElem?_append_left hi]

theorem length_appendChild (d : Document) (h : Nat) (n : Node) :
    (appendChild d h n).length = d.length + 1 := by
  simp [appendChild]

theorem styleOf_setAttribute (d : Document) (el : Nat) (name value : String) (i : Nat) :
    styleOf (setAttribute d el name value) i = styleOf d i := by
  unfold styleOf setAttribute
  rw [List.getElem?_modify]
  cases d[i]? with
  | none => rfl
  | some e => by_cases h : el = i <;> simp [h]

theorem length_setAttribute (d : Document) (el : Nat) (name value : String) :
    (setAttribute d el name value).length = d.length := by
  unfold setAttribute
  exact List.length_modify _ _ _

theorem length_setStyle (d : Document) (el : Nat) (p v : String) :
    (setStyle d el p v).length = d.length := by
  unfold setStyle
  exact List.length_modify _ _ _

theorem getDecl_styleOf_setStyle_ne (d : Document) (el : Nat) (p v q : String) (i : Nat)
    (h : ∀ qv ∈ expand p v, qv.1 ≠ q) :
    getDecl q (styleOf (setStyle d el p v) i) = getDecl q (styleOf d i) := by
  unfold styleOf setStyle
  rw [List.getElem?_modify]
  cases d[i]? with
  | none => rfl
  | some e =>
    by_cases hi : el = i
    · simp only [hi, if_true, Option.map_some']
      exact getDecl_applyWrites_of_not_mem _ _ _ h
    · simp [hi]

end Dom

namespace SafariDetector

open Dom

theorem findOrCreateViewport_style (d d4 : Document) (v : Nat)
    (h : findOrCreateViewport d = some (d4, v)) :
    d.length ≤ d4.length ∧ ∀ i, i < d.length → styleOf d4 i = styleOf d i := by
  unfold findOrCreateViewport at h
  split at h
  · injection h with h; injection h with h1 h2
    subst h1
    exact ⟨Nat.le_refl _, fun _ _ => rfl⟩
  · split at h
    · injection h with h; injection h with h1 h2
      subst h1
      exact ⟨by rw [length_appendChild]; omega, fun i hi => styleOf_appendChild _ _ _ i hi⟩
    · cases h

/-- Fixes 4 to 6 leave every declaration of the elements that were in the
document, except those of `overscroll-behavior`. -/
theorem fixDocument_style (d d2 : Document) (h : fixDocument d = some d2) (i : Nat)
    (hi : i < d.length) (q : String)
    (hq : ∀ qv ∈ expand "overscroll-behavior" "none", qv.1 ≠ q) :
    getDecl q (styleOf d2 i) = getDecl q (styleOf d i) := by
  unfold fixDocument at h
  split at h
  · cases h
  · rename_i d4 v hv
    have h4 := findOrCreateViewport_style d d4 v hv
    simp only at h
    split at h
    · cases h
    · split at h
      · cases h
      · split at h
        · cases h
        · injection h with h
          subst h
          rw [styleOf_appendChild _ _ _ i (by
              rw [length_setStyle, length_setStyle, length_setAttribute]; omega),
            getDecl_styleOf_setStyle_ne _ _ _ _ _ _ hq,
            getDecl_styleOf_setStyle_ne _ _ _ _ _ _ hq, styleOf_setAttribute, h4.2 i hi]

/-- The declarations that fixes 1 to 3 set on an element. -/
theorem elementOps_writes (t : List Node) (i : Nat) (q : String) (hi : i < t.length)
    (h : (inputSel t i = true ∧ q = "font-size") ∨
      (animatedSel t i = true ∧ q ∈ longhandsIn animatedPatch) ∨
      (touchSel t i = true ∧ q ∈ longhandsIn touchPatch)) :
    ∃ qv ∈ writesOn i (elementOps t), qv.1 = q := by
  unfold elementOps
  rcases h with ⟨hs, hp⟩ | ⟨hs, hp⟩ | ⟨hs, hp⟩
  · refine ⟨("font-size", Value.text "16px"), ?_, hp.symm⟩
    rw [SelectboxFix.mem_writesOn]
    refine ⟨"font-size", "16px", ?_, by decide⟩
    apply List.mem_append_left
    apply List.mem_append_left
    rw [List.mem_flatMap]
    exact ⟨i, by rw [List.mem_filter, List.mem_range]; exact ⟨hi, hs⟩, by simp⟩
  · obtain ⟨pv, hpv, qv, hqv, e⟩ := (SelectboxFix.mem_longhandsIn _ _).mp hp
    refine ⟨qv, ?_, e⟩
    rw [SelectboxFix.mem_writesOn]
    refine ⟨pv.1, pv.2, ?_, hqv⟩
    apply List.mem_append_left
    apply List.mem_append_right
    rw [List.mem_flatMap]
    exact ⟨i, by rw [List.mem_filter, List.mem_range]; exact ⟨hi, hs⟩,
      (SelectboxFix.mem_assignOps _ _ _).mpr ⟨pv, hpv, rfl⟩⟩
  · obtain ⟨pv, hpv, qv, hqv, e⟩ := (SelectboxFix.mem_longhandsIn _ _).mp hp
    refine ⟨qv, ?_, e⟩
    rw [SelectboxFix.mem_writesOn]
    refine ⟨pv.1, pv.2, ?_, hqv⟩
    apply List.mem_append_right
    rw [List.mem_flatMap]
    exact ⟨i, by rw [List.mem_filter, List.mem_range]; exact ⟨hi, hs⟩,
      (SelectboxFix.mem_assignOps _ _ _).mpr ⟨pv, hpv, rfl⟩⟩

theorem overscroll_longhands :
    ∀ qv ∈ expand "overscroll-behavior" "none",
      qv.1 = "overscroll-behavior-x" ∨ qv.1 = "overscroll-behavior-y" := by
  decide

/-- After `applySafariIOS26Fixes`, every property that the patch of a matched
element sets is declared with empty priority. -/
theorem applySafariIOS26Fixes_priority (doc doc2 : Document)
    (h : applySafariIOS26Fixes doc = some doc2) (i : Nat) (q : String) (hi : i < doc.length)
    (hm : (inputSel (tree doc) i = true ∧ q = "font-size") ∨
      (animatedSel (tree doc) i = true ∧ q ∈ longhandsIn animatedPatch) ∨
      (touchSel (tree doc) i = true ∧ q ∈ longhandsIn touchPatch)) :
    ∃ v, getDecl q (styleOf doc2 i) = some ⟨q, v, false⟩ := by
  unfold applySafariIOS26Fixes at h
  have hne : ∀ qv ∈ expand "overscroll-behavior" "none", qv.1 ≠ q := by
    intro qv hqv e
    rcases overscroll_longhands qv hqv with hx | hx
    · rw [hx] at e
      rcases hm with ⟨_, hp⟩ | ⟨_, hp⟩ | ⟨_, hp⟩
      · rw [hp] at e; exact absurd e (by decide)
      · rw [← e] at hp; exact absurd hp (by decide)
      · rw [← e] at hp; exact absurd hp (by decide)
    · rw [hx] at e
      rcases hm with ⟨_, hp⟩ | ⟨_, hp⟩ | ⟨_, hp⟩
      · rw [hp] at e; exact absurd e (by decide)
      · rw [← e] at hp; exact absurd hp (by decide)
      · rw [← e] at hp; exact absurd hp (by decide)
  have hlen : i < (fixElements doc).length := by
    rw [fixElements_eq, length_runOps]; exact hi
  rw [fixDocument_style _ _ h i hlen q hne, fixElements_eq, styleOf_runOps _ _ _ hi]
  have hw := elementOps_writes (tree doc) i q (by rw [length_tree]; exact hi) hm
  obtain ⟨v, _, hv⟩ := getDecl_applyWrites_of_mem _ q (styleOf doc i) hw
  exact ⟨v, hv⟩

end SafariDetector

namespace SelectboxFix

open Dom

/-- The declarations the pass sets on an element of one of the three kinds. -/
theorem passOps_writes (t : List Node) (i : Nat) (q : String)
    (h : (isListbox t i = true ∧ q ∈ longhandsIn listboxPatch) ∨
      (isRow t i = true ∧ q ∈ rowProps) ∨
      (isRowDescendant t i = true ∧ q ∈ longhandsIn childPatch)) :
    ∃ qv ∈ writesOn i (passOps t), qv.1 = q := by
  rcases h with ⟨hs, hp⟩ | ⟨hs, hp⟩ | ⟨hs, hp⟩
  · obtain ⟨pv, hpv, qv, hqv, e⟩ := (mem_longhandsIn _ _).mp hp
    refine ⟨qv, ?_, e⟩
    rw [mem_writesOn]
    refine ⟨pv.1, pv.2, ?_, hqv⟩
    rw [mem_passOps]
    exact ⟨i, hs, Or.inl ⟨pv, hpv, rfl⟩⟩
  · obtain ⟨l, hl, hr⟩ := (isRow_iff t i).mp hs
    have hp2 : ∃ pv ∈ rowPatch ++ colourPatch t i, ∃ qv ∈ expand pv.1 pv.2, qv.1 = q := by
      rcases List.mem_append.mp hp with hp | hp
      · obtain ⟨pv, hpv, qv, hqv, e⟩ := (mem_longhandsIn _ _).mp hp
        exact ⟨pv, List.mem_append_left _ hpv, qv, hqv, e⟩
      · simp only [List.mem_cons, List.mem_singleton, List.not_mem_nil, or_false] at hp
        unfold colourPatch
        cases isSelected t i
        · rcases hp with hp | hp
          · exact ⟨("background-color", "#ffffff"), by simp [unselectedPatch],
              ("background-color", Value.text "#ffffff"), by decide, hp.symm⟩
          · exact ⟨("color", "#0f172a"), by simp [unselectedPatch],
              ("color", Value.text "#0f172a"), by decide, hp.symm⟩
        · rcases hp with hp | hp
          · exact ⟨("background-color", "#10b981"), by simp [selectedPatch],
              ("background-color", Value.text "#10b981"), by decide, hp.symm⟩
          · exact ⟨("color", "#ffffff"), by simp [selectedPatch],
              ("color", Value.text "#ffffff"), by decide, hp.symm⟩
    obtain ⟨pv, hpv, qv, hqv, e⟩ := hp2
    refine ⟨qv, ?_, e⟩
    rw [mem_writesOn]
    refine ⟨pv.1, pv.2, ?_, hqv⟩
    rw [mem_passOps]
    exact ⟨l, hl, Or.inr ⟨i, hr, Or.inl ⟨pv, hpv, rfl⟩⟩⟩
  · obtain ⟨o, ho, hc⟩ := (isRowDescendant_iff t i).mp hs
    obtain ⟨l, hl, hr⟩ := (isRow_iff t o).mp ho
    obtain ⟨pv, hpv, qv, hqv, e⟩ := (mem_longhandsIn _ _).mp hp
    refine ⟨qv, ?_, e⟩
    rw [mem_writesOn]
    refine ⟨pv.1, pv.2, ?_, hqv⟩
    rw [mem_passOps]
    exact ⟨l, hl, Or.inr ⟨o, hr, Or.inr (Or.inr (Or.inr (Or.inr ⟨i, hc, pv, hpv, rfl⟩)))⟩⟩

theorem isListbox_lt (t : List Node) (i : Nat) (h : isListbox t i = true) : i < t.length :=
  ((isListbox_iff t i).mp h).1

theorem isRowDescendant_lt (t : List Node) (i : Nat) (h : isRowDescendant t i = true) :
    i < t.length := by
  simp only [isRowDescendant, Bool.and_eq_true, decide_eq_true_eq] at h
  exact h.1

set_option maxRecDepth 100000 in
/-- C10 fails as stated: `padding-left` is not among the properties the pass
assigns on a listbox, and yet the pass replaces its declaration on the listbox
of the sample page, because the assignment to `padding` sets all four padding
longhands. -/
theorem fixSelectboxSpacing_overwrites_longhand :
    isListbox (tree Demo.page) 3 = true ∧
    isRow (tree Demo.page) 3 = false ∧
    isRowDescendant (tree Demo.page) 3 = false ∧
    "padding-left" ∉ propsOf listboxPatch ∧
    getDecl "padding-left" (styleOf Demo.page 3)
      = some ⟨"padding-left", .text "20px", false⟩ ∧
    getDecl "padding-left" (styleOf (fixSelectboxSpacing Demo.page) 3)
      = some ⟨"padding-left", .part "padding" "0", false⟩ := by
  decide

end SelectboxFix

/-! ## Growth of the document head -/

namespace Dom

theorem extends_refl (t : List Node) : Extends t t :=
  ⟨Nat.le_refl _, fun _ _ => ⟨rfl, rfl⟩⟩

theorem extends_trans {t1 t2 t3 : List Node} (h1 : Extends t1 t2) (h2 : Extends t2 t3) :
    Extends t1 t3 := by
  refine ⟨Nat.le_trans h1.1 h2.1, ?_⟩
  intro j hj
  have a := h1.2 j hj
  have b := h2.2 j (Nat.lt_of_lt_of_le hj h1.1)
  exact ⟨b.1.trans a.1, b.2.trans a.2⟩

theorem tree_appendChild (d : Document) (h : Nat) (n : Node) :
    tree (appendChild d h n) = tree d ++ [{ n with parent := some h }] := by
  simp [tree, appendChild]

theorem extends_append (t : List Node) (n : Node) : Extends t (t ++ [n]) := by
  refine ⟨by simp, ?_⟩
  intro j hj
  unfold tagOf parentOf
  rw [List.getElem?_append_left hj]
  exact ⟨rfl, rfl⟩

theorem extends_setAttribute (d : Document) (el : Nat) (name value : String) :
    Extends (tree d) (tree (setAttribute d el name value)) := by
  refine ⟨by simp [tree, setAttribute], ?_⟩
  intro j _
  unfold tagOf parentOf
  rw [getElem?_tree_setAttribute]
  cases (tree d)[j]? with
  | none => exact ⟨rfl, rfl⟩
  | some nd => by_cases hij : el = j <;> simp [hij]

/-- The first index that passes a test stays the first one when the tree grows
at the end and the test keeps its value on the old indices. -/
theorem find_stable {t1 t2 : List Node} (h : Extends t1 t2) (p1 p2 : Nat → Bool) (x : Nat)
    (hp : ∀ j, j < t1.length → p2 j = p1 j)
    (hx : (List.range t1.length).find? p1 = some x) :
    (List.range t2.length).find? p2 = some x := by
  rw [List.find?_range_eq_some] at hx ⊢
  obtain ⟨h1, h2, h3⟩ := hx
  have hlt : x < t1.length := List.mem_range.mp h2
  refine ⟨by rw [hp x hlt]; exact h1, List.mem_range.mpr (Nat.lt_of_lt_of_le hlt h.1), ?_⟩
  intro j hj
  rw [hp j (Nat.lt_trans hj hlt)]
  exact h3 j hj

theorem documentHead_stable (d1 d2 : Document) (h : Extends (tree d1) (tree d2)) (x : Nat)
    (hx : documentHead d1 = some x) : documentHead d2 = some x := by
  unfold documentHead at hx ⊢
  rw [← length_tree] at hx ⊢
  apply find_stable h _ _ x _ hx
  intro j hj
  rw [(h.2 j hj).1, (h.2 j hj).2]

theorem documentBody_stable (d1 d2 : Document) (h : Extends (tree d1) (tree d2)) (x : Nat)
    (hx : documentBody d1 = some x) : documentBody d2 = some x := by
  unfold documentBody at hx ⊢
  rw [← length_tree] at hx ⊢
  apply find_stable h _ _ x _ hx
  intro j hj
  rw [(h.2 j hj).1, (h.2 j hj).2]

theorem documentHead_lt (d : Document) (x : Nat) (hx : documentHead d = some x) :
    x < d.length := by
  unfold documentHead at hx
  rw [List.find?_range_eq_some] at hx
  exact List.mem_range.mp hx.2.1

/-- The number of nodes of a tree that satisfy a test. -/
theorem filter_length_eq (doc : Document) (p : Node → Bool) :
    (doc.filter (fun e => p e.node)).length = ((tree doc).filter p).length := by
  induction doc with
  | nil => rfl
  | cons e es ih =>
    simp only [tree, List.map_cons, List.filter_cons] at ih ⊢
    split <;> simp [ih]

theorem filter_modify_length (t : List Node) (g : Node → Node) (i : Nat) (p : Node → Bool)
    (h : ∀ n, p (g n) = p n) : ((t.modify g i).filter p).length = (t.filter p).length := by
  induction t generalizing i with
  | nil => simp
  | cons n ns ih =>
    cases i with
    | zero =>
      simp only [List.modify_zero_cons, List.filter_cons, h]
      split <;> simp
    | succ k =>
      simp only [List.modify_succ_cons, List.filter_cons]
      split <;> simp [ih k]

theorem iterate?_succ_of_some {α : Type} (f : α → Option α) (n : Nat) (a b : α)
    (h : f a = some b) : iterate? f (n + 1) a = iterate? f n b := by
  simp [iterate?, h]

end Dom

namespace SafariDetector

open Dom

theorem emergencyStyleCount_eq (doc : Document) :
    emergencyStyleCount doc =
      ((tree doc).filter (isEmergencyStyle (documentHead doc))).length :=
  filter_length_eq doc _

theorem isEmergencyStyle_viewport (h x : Option Nat) :
    isEmergencyStyle h { viewportNode with parent := x } = false := by
  cases h <;> cases x <;> rfl

theorem isEmergencyStyle_new (h : Nat) :
    isEmergencyStyle (some h) { emergencyStyleNode with parent := some h } = true := by
  simp [isEmergencyStyle, emergencyStyleNode]

theorem findOrCreateViewport_spec (d : Document) (h : Nat) (hh : documentHead d = some h) :
    ∃ d4 v, findOrCreateViewport d = some (d4, v) ∧ Extends (tree d) (tree d4) ∧
      ((tree d4).filter (isEmergencyStyle (some h))).length =
        ((tree d).filter (isEmergencyStyle (some h))).length := by
  unfold findOrCreateViewport
  cases querySelector d viewportSel with
  | some v => exact ⟨d, v, rfl, extends_refl _, rfl⟩
  | none =>
    simp only [hh]
    refine ⟨_, _, rfl, ?_, ?_⟩
    · rw [tree_appendChild]; exact extends_append _ _
    · rw [tree_appendChild, List.filter_append]
      simp [List.filter_cons, isEmergencyStyle_viewport]

/-- With a head and a body in the document, fixes 4 to 6 complete, keep head
and body, and add one emergency style element to the head. -/
theorem fixDocument_spec (d : Document) (h b : Nat) (hh : documentHead d = some h)
    (hb : documentBody d = some b) :
    ∃ d2, fixDocument d = some d2 ∧ Extends (tree d) (tree d2) ∧
      ((tree d2).filter (isEmergencyStyle (some h))).length =
        ((tree d).filter (isEmergencyStyle (some h))).length + 1 := by
  obtain ⟨d4, v, hv, he4, hc4⟩ := findOrCreateViewport_spec d h hh
  have he5 : Extends (tree d) (tree (setAttribute d4 v "content" viewportContent)) :=
    extends_trans he4 (extends_setAttribute _ _ _ _)
  have hb5 := documentBody_stable _ _ he5 b hb
  have he6 : Extends (tree d)
      (tree (setStyle (setAttribute d4 v "content" viewportContent) b
        "overscroll-behavior" "none")) := by
    rw [tree_setStyle]; exact he5
  have hlen : 0 < (setStyle (setAttribute d4 v "content" viewportContent) b
      "overscroll-behavior" "none").length := by
    rw [length_setStyle, length_setAttribute]
    have h1 := documentHead_lt d h hh
    have h2 := he4.1
    rw [length_tree, length_tree] at h2
    omega
  have hroot : documentElement (setStyle (setAttribute d4 v "content" viewportContent) b
      "overscroll-behavior" "none") = some 0 := by
    unfold documentElement; simp [hlen]
  have he7 : Extends (tree d)
      (tree (setStyle (setStyle (setAttribute d4 v "content" viewportContent) b
        "overscroll-behavior" "none") 0 "overscroll-behavior" "none")) := by
    rw [tree_setStyle]; exact he6
  have hh7 := documentHead_stable _ _ he7 h hh
  refine ⟨appendChild (setStyle (setStyle (setAttribute d4 v "content" viewportContent) b
        "overscroll-behavior" "none") 0 "overscroll-behavior" "none") h emergencyStyleNode,
    ?_, ?_, ?_⟩
  · unfold fixDocument
    simp only [hv, hb5, hroot, hh7]
  · rw [tree_appendChild]
    exact extends_trans he7 (extends_append _ _)
  · rw [tree_appendChild, tree_setStyle, tree_setStyle, List.filter_append, List.length_append]
    have hc5 : ((tree (setAttribute d4 v "content" viewportContent)).filter
        (isEmergencyStyle (some h))).length =
        ((tree d4).filter (isEmergencyStyle (some h))).length := by
      unfold setAttribute
      rw [tree_modify_node d4 (fun nd => { nd with attrs := setAttr "content" viewportContent nd.attrs }) v]
      exact filter_modify_length _ _ _ _ (fun _ => rfl)
    rw [hc5, hc4]
    simp [List.filter_cons, isEmergencyStyle_new]

/-- With a head and a body in the document, `applySafariIOS26Fixes` completes,
keeps head and body, and adds one emergency style element to the head. -/
theorem applySafariIOS26Fixes_adds_style (doc : Document) (h b : Nat)
    (hh : documentHead doc = some h) (hb : documentBody doc = some b) :
    ∃ d2, applySafariIOS26Fixes doc = some d2 ∧ documentHead d2 = some h ∧
      documentBody d2 = some b ∧ emergencyStyleCount d2 = emergencyStyleCount doc + 1 := by
  have ht : tree (fixElements doc) = tree doc := by rw [fixElements_eq, tree_runOps]
  have he : Extends (tree doc) (tree (fixElements doc)) := by rw [ht]; exact extends_refl _
  obtain ⟨d2, h2, he2, hc2⟩ := fixDocument_spec (fixElements doc) h b
    (documentHead_stable _ _ he h hh) (documentBody_stable _ _ he b hb)
  rw [ht] at he2 hc2
  have hh2 := documentHead_stable _ _ he2 h hh
  refine ⟨d2, h2, hh2, documentBody_stable _ _ he2 b hb, ?_⟩
  rw [emergencyStyleCount_eq, emergencyStyleCount_eq, hh2, hh, hc2]

/-- After `n` runs of `applySafariIOS26Fixes` on a document with a head and a
body, the head has `n` more emergency style elements than before. -/
theorem applySafariIOS26Fixes_iterate (n : Nat) (doc : Document) (h b : Nat)
    (hh : documentHead doc = some h) (hb : documentBody doc = some b) :
    ∃ d2, iterate? applySafariIOS26Fixes n doc = some d2 ∧
      emergencyStyleCount d2 = emergencyStyleCount doc + n := by
  induction n generalizing doc with
  | zero => exact ⟨doc, rfl, rfl⟩
  | succ n ih =>
    obtain ⟨d1, h1, hh1, hb1, hc1⟩ := applySafariIOS26Fixes_adds_style doc h b hh hb
    obtain ⟨d2, h2, hc2⟩ := ih d1 hh1 hb1
    refine ⟨d2, ?_, ?_⟩
    · rw [iterate?_succ_of_some _ _ _ _ h1]; exact h2
    · rw [hc2, hc1]; omega

end SafariDetector

namespace SelectboxFix

open Dom

theorem criticalStyleCount_eq (doc : Document) :
    criticalStyleCount doc =
      ((tree doc).filter (isCriticalStyle (documentHead doc))).length :=
  filter_length_eq doc _

theorem isCriticalStyle_new (h : Nat) :
    isCriticalStyle (some h) { criticalStyle with parent := some h } = true := by
  simp [isCriticalStyle, criticalStyle, Node.attr]

/-- With a head and a body in the document, the script body completes, calls
`fixSelectboxSpacing` once, keeps head and body, and adds one critical style
element to the head. -/
theorem scriptBody_adds_style (p : Page) (h b : Nat) (hh : documentHead p.doc = some h)
    (hb : documentBody p.doc = some b) :
    ∃ p2, scriptBody p = some p2 ∧ documentHead p2.doc = some h ∧
      documentBody p2.doc = some b ∧
      criticalStyleCount p2.doc = criticalStyleCount p.doc + 1 := by
  have ht : tree (callFix p).doc = tree p.doc := tree_fixSelectboxSpacing p.doc
  have he : Extends (tree p.doc) (tree (callFix p).doc) := by rw [ht]; exact extends_refl _
  have hb1 := documentBody_stable _ _ he b hb
  have hh1 := documentHead_stable _ _ he h hh
  have he2 : Extends (tree p.doc) (tree (appendChild (callFix p).doc h criticalStyle)) := by
    rw [tree_appendChild, ht]; exact extends_append _ _
  have hh2 := documentHead_stable _ _ he2 h hh
  refine ⟨⟨appendChild (callFix p).doc h criticalStyle, (callFix p).calls,
      (callFix p).timeouts, (callFix p).intervals ++ [500], (callFix p).observers + 1⟩,
    ?_, hh2, documentBody_stable _ _ he2 b hb, ?_⟩
  · unfold scriptBody
    simp only [hb1, hh1]
  · show criticalStyleCount (appendChild (callFix p).doc h criticalStyle) = _
    rw [criticalStyleCount_eq, criticalStyleCount_eq, hh2, hh, tree_appendChild, ht,
      List.filter_append, List.length_append]
    simp [List.filter_cons, isCriticalStyle_new]

/-- After `n` runs of the script body on a document with a head and a body,
the head has `n` more critical style elements than before. -/
theorem scriptBody_iterate (n : Nat) (p : Page) (h b : Nat)
    (hh : documentHead p.doc = some h) (hb : documentBody p.doc = some b) :
    ∃ p2, iterate? scriptBody n p = some p2 ∧
      criticalStyleCount p2.doc = criticalStyleCount p.doc + n := by
  induction n generalizing p with
  | zero => exact ⟨p, rfl, rfl⟩
  | succ n ih =>
    obtain ⟨p1, h1, hh1, hb1, hc1⟩ := scriptBody_adds_style p h b hh hb
    obtain ⟨p2, h2, hc2⟩ := ih p1 hh1 hb1
    refine ⟨p2, ?_, ?_⟩
    · rw [iterate?_succ_of_some _ _ _ _ h1]; exact h2
    · rw [hc2, hc1]; omega

set_option maxRecDepth 100000 in
/-- C7 fails on the code: neither script checks for an element it has already
inserted.  Two runs of `applySafariIOS26Fixes` on the sample form leave two
emergency style elements in the head, and two runs of the body of the listbox
script on the sample page leave two elements with the identifier
`selectbox-critical-override` in the head. -/
theorem style_inserted_on_every_run :
    (iterate? SafariDetector.applySafariIOS26Fixes 2 Demo.form).map
      SafariDetector.emergencyStyleCount = some 2 ∧
    (iterate? scriptBody 2 (Demo.start Demo.page)).map (fun p => criticalStyleCount p.doc)
      = some 2 := by
  decide

end SelectboxFix

/-! ## The observer callbacks -/

namespace SafariDetector

open Dom

theorem observer_eq_iterate (p : Page) (mutations : List MutationRecord) :
    observer p mutations =
      iterate? callFixes (mutations.countP (fun m => decide (m.addedNodes.length > 0))) p := by
  unfold observer
  induction mutations generalizing p with
  | nil => rfl
  | cons m ms ih =>
    rw [List.foldlM_cons]
    by_cases hm : m.addedNodes.length > 0
    · rw [List.countP_cons_of_pos _ _ (by simpa using hm)]
      simp only [hm, if_true]
      cases hc : callFixes p with
      | none => simp [iterate?, hc]
      | some q =>
        rw [iterate?_succ_of_some _ _ _ _ hc]
        exact ih q
    · rw [List.countP_cons_of_neg _ _ (by simpa using hm)]
      simp only [hm, if_false]
      exact ih p

theorem callFixes_spec (q q2 : Page) (h : callFixes q = some q2) :
    q2.calls = q.calls + 1 ∧ applySafariIOS26Fixes q.doc = some q2.doc := by
  unfold callFixes at h
  split at h
  · rename_i d hd
    injection h with h
    subst h
    exact ⟨rfl, hd⟩
  · cases h

/-- With a head and a body in the document, `n` calls in a row complete and
are counted. -/
theorem callFixes_iterate (n : Nat) (p : Page) (h b : Nat)
    (hh : documentHead p.doc = some h) (hb : documentBody p.doc = some b) :
    ∃ p2, iterate? callFixes n p = some p2 ∧ p2.calls = p.calls + n := by
  induction n generalizing p with
  | zero => exact ⟨p, rfl, rfl⟩
  | succ n ih =>
    obtain ⟨d1, h1, hh1, hb1, _⟩ := applySafariIOS26Fixes_adds_style p.doc h b hh hb
    have hc : callFixes p = some { p with doc := d1, calls := p.calls + 1 } := by
      unfold callFixes; simp only [h1]
    obtain ⟨p2, h2, hc2⟩ := ih { p with doc := d1, calls := p.calls + 1 } hh1 hb1
    refine ⟨p2, ?_, ?_⟩
    · rw [iterate?_succ_of_some _ _ _ _ hc]; exact h2
    · rw [hc2]; simp only; omega

end SafariDetector

namespace SelectboxFix

open Dom

theorem onAddedNode_eq (p : Page) (node : AddedNode) :
    onAddedNode p node =
      { p with timeouts := p.timeouts ++ (if setsTimer p.doc node then [10] else []) } := by
  cases node with
  | element i =>
    unfold onAddedNode setsTimer
    simp only [AddedNode.nodeType, beq_self_eq_true, if_true]
    split <;> simp
  | text => simp [onAddedNode, setsTimer, AddedNode.nodeType]
  | comment => simp [onAddedNode, setsTimer, AddedNode.nodeType]

theorem foldl_onAddedNode (p : Page) (nodes : List AddedNode) :
    nodes.foldl onAddedNode p =
      { p with timeouts := p.timeouts ++ List.replicate (nodes.countP (setsTimer p.doc)) 10 } := by
  induction nodes generalizing p with
  | nil => simp
  | cons n ns ih =>
    rw [List.foldl_cons, ih, onAddedNode_eq]
    by_cases h : setsTimer p.doc n = true
    · rw [List.countP_cons_of_pos _ _ h]
      simp [h, List.replicate_succ]
    · rw [List.countP_cons_of_neg _ _ h]
      simp [h]

/-- The callback of the listbox script only sets timers. -/
theorem observer_eq (p : Page) (mutations : List MutationRecord) :
    observer p mutations =
      { p with timeouts := p.timeouts ++
          List.replicate ((mutations.flatMap (fun m => m.addedNodes)).countP
            (setsTimer p.doc)) 10 } := by
  unfold observer
  induction mutations generalizing p with
  | nil => simp
  | cons m ms ih =>
    rw [List.foldl_cons]
    have hstep : (if (m.addedNodes.length != 0) = true then m.addedNodes.foldl onAddedNode p
        else p) = m.addedNodes.foldl onAddedNode p := by
      split
      · rfl
      · rename_i h
        have : m.addedNodes = [] := by
          cases hm : m.addedNodes with
          | nil => rfl
          | cons _ _ => rw [hm] at h; simp at h
        rw [this]; rfl
    rw [hstep, ih, foldl_onAddedNode]
    simp only [List.flatMap_cons, List.countP_append, List.replicate_add, List.append_assoc]

end SelectboxFix

namespace SelectboxFix

open Dom

/-- C9, as the code has it: the callback of the detector script calls
`applySafariIOS26Fixes` within the callback, once for every record of the
batch that has added nodes, whatever the nodes are, and with a head and a body
in the document all these calls complete.  The callback of the listbox script
makes no call of `fixSelectboxSpacing` and leaves the document as it is: for
every added element that has the role `listbox` or contains an element with
that role it sets one timer of 10 ms, and the call is made when a timer
expires. -/
theorem observers_reapply (p : Page) (mutations : List MutationRecord) :
    (SafariDetector.observer p mutations =
      iterate? SafariDetector.callFixes
        (mutations.countP (fun m => decide (m.addedNodes.length > 0))) p) ∧
    (∀ h b, documentHead p.doc = some h → documentBody p.doc = some b →
      ∃ p2, SafariDetector.observer p mutations = some p2 ∧
        p2.calls = p.calls + mutations.countP (fun m => decide (m.addedNodes.length > 0))) ∧
    ((∃ m ∈ mutations, m.addedNodes ≠ []) →
      0 < mutations.countP (fun m => decide (m.addedNodes.length > 0))) ∧
    (observer p mutations).calls = p.calls ∧
    (observer p mutations).doc = p.doc ∧
    (observer p mutations).timeouts = p.timeouts ++
      List.replicate ((mutations.flatMap (fun m => m.addedNodes)).countP (setsTimer p.doc)) 10 ∧
    (∀ q : Page, q.timeouts ≠ [] →
      (fireTimeout q).calls = q.calls + 1 ∧ (fireTimeout q).doc = fixSelectboxSpacing q.doc) := by
  refine ⟨SafariDetector.observer_eq_iterate p mutations, ?_, ?_, ?_, ?_, ?_, ?_⟩
  · intro h b hh hb
    rw [SafariDetector.observer_eq_iterate]
    exact SafariDetector.callFixes_iterate _ p h b hh hb
  · rintro ⟨m, hm, hne⟩
    rw [List.countP_pos_iff]
    refine ⟨m, hm, ?_⟩
    cases hn : m.addedNodes with
    | nil => exact absurd hn hne
    | cons _ _ => simp
  · rw [observer_eq]
  · rw [observer_eq]
  · rw [observer_eq]
  · intro q hq
    unfold fireTimeout
    cases hts : q.timeouts with
    | nil => exact absurd hts hq
    | cons t ts => exact ⟨rfl, rfl⟩

/-- C9 fails as stated: in the listbox script, a batch whose record has an
added listbox leaves the call count and the document as they were and only
sets a timer, and a batch whose record has an added text node or an added
paragraph does nothing at all. -/
theorem observer_defers_or_skips :
    (observer (Demo.start Demo.page) [⟨[.element 3]⟩]).calls = 0 ∧
    (observer (Demo.start Demo.page) [⟨[.element 3]⟩]).doc = Demo.page ∧
    (observer (Demo.start Demo.page) [⟨[.element 3]⟩]).timeouts = [10] ∧
    Demo.page ≠ fixSelectboxSpacing Demo.page ∧
    observer (Demo.start Demo.page) [⟨[.text]⟩] = Demo.start Demo.page ∧
    observer (Demo.start Demo.page) [⟨[.element 8]⟩] = Demo.start Demo.page := by
  decide

set_option maxRecDepth 100000 in
/-- Witness of the amended C9: on the sample form a batch of three records,
two of them with added nodes, makes two calls of `applySafariIOS26Fixes`. -/
theorem observers_reapply_witness :
    ∃ p2, SafariDetector.observer (Demo.start Demo.form)
        [⟨[.text]⟩, ⟨[]⟩, ⟨[.element 3]⟩] = some p2 ∧
      p2.calls = (Demo.start Demo.form).calls +
        List.countP (fun m => decide (m.addedNodes.length > 0))
          ([⟨[.text]⟩, ⟨[]⟩, ⟨[.element 3]⟩] : List MutationRecord) :=
  (observers_reapply (Demo.start Demo.form) [⟨[.text]⟩, ⟨[]⟩, ⟨[.element 3]⟩]).2.1 1 2
    (by decide) (by decide)

end SelectboxFix

/-! ## The priority of the writes of a pass -/

namespace SelectboxFix

open Dom

/-- C8, as the code has it: a reapplication pass leaves every property of the
patch of every matched element, or each of its longhands when the property is
a shorthand, declared inline with empty priority, not with `important`
priority, also when the declaration was `important` before the pass; this
holds for `fixSelectboxSpacing` on listboxes, rows and row descendants, and
for `applySafariIOS26Fixes` on form inputs, animated elements and buttons,
where the pass completes whenever the document has a head and a body. -/
theorem reapplication_priority_normal (doc : Document) (i : Nat) (q : String) :
    (((isListbox (tree doc) i = true ∧ q ∈ longhandsIn listboxPatch) ∨
      (isRow (tree doc) i = true ∧ q ∈ rowProps) ∨
      (isRowDescendant (tree doc) i = true ∧ q ∈ longhandsIn childPatch)) →
      ∃ v, getDecl q (styleOf (fixSelectboxSpacing doc) i) = some ⟨q, v, false⟩) ∧
    (∀ doc2, SafariDetector.applySafariIOS26Fixes doc = some doc2 → i < doc.length →
      ((SafariDetector.inputSel (tree doc) i = true ∧ q = "font-size") ∨
       (SafariDetector.animatedSel (tree doc) i = true ∧
         q ∈ longhandsIn SafariDetector.animatedPatch) ∨
       (SafariDetector.touchSel (tree doc) i = true ∧
         q ∈ longhandsIn SafariDetector.touchPatch)) →
      ∃ v, getDecl q (styleOf doc2 i) = some ⟨q, v, false⟩) ∧
    (∀ h b, documentHead doc = some h → documentBody doc = some b →
      ∃ doc2, SafariDetector.applySafariIOS26Fixes doc = some doc2) := by
  refine ⟨?_, ?_, ?_⟩
  · intro h
    have hlen : i < doc.length := by
      rw [← length_tree]
      rcases h with ⟨h, _⟩ | ⟨h, _⟩ | ⟨h, _⟩
      · exact isListbox_lt _ _ h
      · exact isRow_lt _ _ h
      · exact isRowDescendant_lt _ _ h
    rw [fixSelectboxSpacing_eq, styleOf_runOps _ _ _ hlen]
    obtain ⟨v, _, hv⟩ := getDecl_applyWrites_of_mem _ q (styleOf doc i)
      (passOps_writes (tree doc) i q h)
    exact ⟨v, hv⟩
  · intro doc2 h hi hm
    exact SafariDetector.applySafariIOS26Fixes_priority doc doc2 h i q hi hm
  · intro h b hh hb
    obtain ⟨d2, h2, _⟩ := SafariDetector.applySafariIOS26Fixes_adds_style doc h b hh hb
    exact ⟨d2, h2⟩

set_option maxRecDepth 100000 in
/-- C8 fails as stated: on the sample page the pass leaves the top margin of
the listbox, which was `important`, with empty priority, and on the sample form
`applySafariIOS26Fixes` leaves the font size of the input, which was
`important`, with empty priority. -/
theorem reapplication_not_important :
    getDecl "margin-top" (styleOf Demo.page 3) = some ⟨"margin-top", .text "4px", true⟩ ∧
    getDecl "margin-top" (styleOf (fixSelectboxSpacing Demo.page) 3)
      = some ⟨"margin-top", .part "margin" "0", false⟩ ∧
    getDecl "font-size" (styleOf Demo.form 3) = some ⟨"font-size", .text "12px", true⟩ ∧
    (SafariDetector.applySafariIOS26Fixes Demo.form).map
      (fun d => getDecl "font-size" (styleOf d 3))
        = some (some ⟨"font-size", .text "16px", false⟩) := by
  decide

set_option maxRecDepth 100000 in
/-- Witness of the amended C8: the left padding of the selected row of the
sample page, the tap highlight of the button of the sample form and the font
size of its input of type `EMAIL` end with empty priority. -/
theorem reapplication_priority_normal_witness :
    (∃ v, getDecl "padding-left" (styleOf (fixSelectboxSpacing Demo.page) 4)
      = some ⟨"padding-left", v, false⟩) ∧
    (∃ d2, SafariDetector.applySafariIOS26Fixes Demo.form = some d2 ∧
      (∃ v, getDecl "-webkit-tap-highlight-color" (styleOf d2 5)
        = some ⟨"-webkit-tap-highlight-color", v, false⟩) ∧
      (∃ v, getDecl "font-size" (styleOf d2 6) = some ⟨"font-size", v, false⟩)) :=
  ⟨(reapplication_priority_normal Demo.page 4 "padding-left").1 (Or.inr (Or.inl (by decide))),
   match h : SafariDetector.applySafariIOS26Fixes Demo.form with
   | some d2 =>
     ⟨d2, rfl, (reapplication_priority_normal Demo.form 5 "-webkit-tap-highlight-color").2.1
       d2 h (by decide) (Or.inr (Or.inr (by decide))),
      (reapplication_priority_normal Demo.form 6 "font-size").2.1
       d2 h (by decide) (Or.inl (by decide))⟩
   | none => absurd h (by decide)⟩

end SelectboxFix
